import Mathlib

/-!
Verification development for the bblp-bot schedule-synthesis and dispatch
engine (src/index.js).

Modelling conventions:
* JavaScript numbers holding millisecond timestamps are modelled as `Int`;
  integral counters as `Nat`; monetary amounts (USD) as `ℚ`.
* `Math.random`-driven choices (per-hour weight noise, shuffled index
  orders, sampled second offsets) are threaded as explicit oracle
  parameters; theorems quantify over all well-formed outcomes.
* `JSON.stringify` of the fixed-shape signature object is injective on the
  selected fields, so a configuration signature is modelled as a record of
  those fields, compared by decidable equality.
* ISO-8601 strings are represented by their millisecond instants
  (`new Date(iso).getTime()`); `Array.prototype.sort` on same-format ISO
  strings orders them chronologically.
-/

/-- JavaScript `Math.floor(a / b)` for integers with `b > 0` (`Int.ediv`
floors when the divisor is positive). -/
def floorDivInt (a b : Int) : Int := a.ediv b

/-- JavaScript `Math.ceil(a / b)` for integers with `b > 0`. -/
def ceilDivInt (a b : Int) : Int := -((-a).ediv b)

/-- JavaScript `Math.round(d / 1000)` for an integer `d` (round half
toward positive infinity). -/
def jsRound1000 (d : Int) : Int := (d + 500).ediv 1000

/-- JavaScript `Math.round(x)` on a rational: `⌊x + 1/2⌋`. -/
def jsRoundQ (x : ℚ) : Int := Int.floor (x + 1/2)

/-- src/index.js:219 `floorToHourTs`: floor a millisecond timestamp to its
UTC hour (`setUTCMinutes(0,0,0)`). -/
def floorToHourTs (t : Int) : Int := (t.ediv 3600000) * 3600000

/-- src/index.js:225 `secondOfHour`. -/
def secondOfHour (t : Int) : Int := (t - floorToHourTs t).ediv 1000

/-- src/index.js:215 `clamp`. -/
def clamp (value min max : Int) : Int := Max.max min (Min.min max value)

/-- src/index.js specialPhase sub-configuration. -/
structure SpecialPhaseConfig where
  enabled : Bool
  countdownStartUtc : Int
  presaleStartUtc : Int
  initialBurstMinutes : Nat
  initialBurstCount : Nat
deriving DecidableEq

/-- The merged/defaulted configuration of src/index.js:618.  `botToken`
and `targetChatId` are opaque identity values (strings in the source),
modelled as naturals. -/
structure AppConfig where
  startTimeUtc : Int
  endTimeUtc : Int
  targetTotalUsd : ℚ
  amountPerMessageUsd : ℚ
  minPerHour : Nat
  maxPerHour : Nat
  tokensPerHundred : ℚ
  startRaisedUsd : ℚ
  enforceHardStopAtEnd : Bool
  botToken : Nat
  targetChatId : Nat
  specialPhase : Option SpecialPhaseConfig
deriving DecidableEq

/-- The shallow specialPhase object serialized inside the configuration
signature (src/index.js:69). -/
structure SpecialPhaseSig where
  enabled : Bool
  countdownStartUtc : Int
  presaleStartUtc : Int
  initialBurstMinutes : Nat
  initialBurstCount : Nat
deriving DecidableEq

/-- The fixed-shape object whose `JSON.stringify` is the configuration
signature (src/index.js:59).  Stringify is injective on this shape, so the
record itself serves as the signature value. -/
structure ConfigSignature where
  startTimeUtc : Int
  endTimeUtc : Int
  targetTotalUsd : ℚ
  minPerHour : Nat
  maxPerHour : Nat
  amountPerMessageUsd : ℚ
  tokensPerHundred : ℚ
  enforceHardStopAtEnd : Bool
  specialPhase : Option SpecialPhaseSig
deriving DecidableEq

/-- src/index.js:59 `getConfigSignature`. -/
def getConfigSignature (config : AppConfig) : ConfigSignature :=
  { startTimeUtc := config.startTimeUtc
    endTimeUtc := config.endTimeUtc
    targetTotalUsd := config.targetTotalUsd
    minPerHour := config.minPerHour
    maxPerHour := config.maxPerHour
    amountPerMessageUsd := config.amountPerMessageUsd
    tokensPerHundred := config.tokensPerHundred
    enforceHardStopAtEnd := config.enforceHardStopAtEnd
    specialPhase := config.specialPhase.map fun sp =>
      { enabled := sp.enabled
        countdownStartUtc := sp.countdownStartUtc
        presaleStartUtc := sp.presaleStartUtc
        initialBurstMinutes := sp.initialBurstMinutes
        initialBurstCount := sp.initialBurstCount } }

/-- Event kinds appearing in schedule entries (src/index.js:514, 527, 536).
`other` stands for any unrecognized kind string, handled by the
unknown-type branch of the dispatcher (src/index.js:828). -/
inductive EventKind where
  | buy
  | countdown
  | start
  | other
deriving DecidableEq

/-- One persisted schedule item: either a legacy plain ISO string (a buy)
or an event object `\x7b at, kind, ... \x7d`; the pre-rendered text/image
payloads are presentation data consumed by the external sender and are not
modelled. -/
inductive RawItem where
  | iso (atMs : Int)
  | ev (atMs : Int) (kind : EventKind)
deriving DecidableEq

/-- The `typeof nextRaw === 'string' ? nextRaw : nextRaw.at` ternary
(src/index.js:754). -/
def itemAt : RawItem → Int
  | RawItem.iso t => t
  | RawItem.ev t _ => t

/-- The `typeof nextRaw === 'string' ? { kind: 'buy', ... } : { ...nextRaw }`
normalization (src/index.js:755). -/
def itemKind : RawItem → EventKind
  | RawItem.iso _ => EventKind.buy
  | RawItem.ev _ k => k

/-- Execution state persisted in data/state.json (src/index.js:642), minus
the signature, which is stored alongside (see `StoredState`). -/
structure ExecState where
  schedule : List RawItem
  sentCount : Nat
  totalUsdRaised : ℚ
  completed : Bool
deriving DecidableEq

/-- The full persisted record: execution state plus the configuration
signature it was generated under (src/index.js:642-649). -/
structure StoredState where
  configSignature : ConfigSignature
  st : ExecState
deriving DecidableEq

/-- src/index.js:640 `if (!state || state.configSignature !== configSig)`:
keep the loaded state exactly when present with a matching signature,
otherwise regenerate (`fresh` is the freshly generated state). -/
def resolveState (loaded : Option StoredState) (sig : ConfigSignature)
    (fresh : ExecState) : ExecState :=
  match loaded with
  | none => fresh
  | some s => if s.configSignature = sig then s.st else fresh

/-- src/index.js:846 hard-stop trim: drop every schedule item strictly
after the configured end; cursor, totals and flag untouched. -/
def hardStopTrim (endTs : Int) (state : ExecState) : ExecState :=
  { state with schedule := state.schedule.filter fun item => itemAt item ≤ endTs }

/-- src/index.js:844 `if (defaulted.enforceHardStopAtEnd) { ... }`. -/
def applyHardStop (enforce : Bool) (endTs : Int) (state : ExecState) : ExecState :=
  if enforce then hardStopTrim endTs state else state

/-- Outcome of one awaited Telegram send (src/index.js:788, 820, 822): the
external call either resolves or throws, landing in the catch block. -/
inductive SendOutcome where
  | success
  | failure
deriving DecidableEq

/-- src/index.js:760 `MAX_ALLOWED_DELAY_MS`. -/
def MAX_ALLOWED_DELAY_MS : Int := 30 * 1000

/-- Result of one invocation of the dispatch check: the mutated state, the
sequence of `writeJsonFile(STATE_FILE, state)` snapshots in call order, the
index/item for which a Telegram send was attempted (if any), and the
`setTimeout` delay rearming the loop (none when the loop stops). -/
structure TickResult where
  state : ExecState
  saves : List ExecState
  dispatched : Option (Nat × RawItem)
  resched : Option Int
deriving DecidableEq

/-- The skip-past-events while loop body (src/index.js:761-779), with the
loop's iteration bound made explicit: each iteration advances the cursor,
so the loop runs at most `length - sentCount` times.  Returns the state
after skipping, the persisted snapshots in order, and true when the loop
hit the end of the plan and returned out of `sendNextIfDue`
(src/index.js:765-770). -/
def skipPastAux (now : Int) (st : ExecState) (fuel : Nat) :
    ExecState × List ExecState × Bool :=
  match fuel with
  | 0 => (st, [], false)
  | fuel + 1 =>
    if st.sentCount < st.schedule.length ∧
        itemAt (st.schedule.getD st.sentCount (RawItem.iso 0)) - now < -MAX_ALLOWED_DELAY_MS then
      let st1 : ExecState := { st with sentCount := st.sentCount + 1 }
      if st.schedule.length ≤ st1.sentCount then
        let st2 : ExecState := { st1 with completed := true }
        (st2, [st1, st2], true)
      else
        let rest := skipPastAux now st1 fuel
        (rest.1, st1 :: rest.2.1, rest.2.2)
    else (st, [], false)

/-- The skip-past-events while loop (src/index.js:761-779). -/
def skipPast (now : Int) (st : ExecState) : ExecState × List ExecState × Bool :=
  skipPastAux now st (st.schedule.length - st.sentCount)

/-- src/index.js:743 `sendNextIfDue`, one invocation.  The corrected clock
value (`getCurrentUtcTime`) is passed as `now`; the awaited Telegram send
result is `outcome`.  Payload construction (`buildMessage`, countdown
texts) is presentation for the external sender and not modelled. -/
def sendNextIfDue (amountPerMessageUsd : ℚ) (now : Int) (outcome : SendOutcome)
    (st : ExecState) : TickResult :=
  if st.completed then ⟨st, [], none, none⟩
  else if st.sentCount ≥ st.schedule.length then
    let st1 : ExecState := { st with completed := true }
    ⟨st1, [st1], none, none⟩
  else
    let skip := skipPast now st
    let st1 := skip.1
    let saves1 := skip.2.1
    if skip.2.2 then ⟨st1, saves1, none, none⟩
    else
      let idx := st1.sentCount
      let item := st1.schedule.getD idx (RawItem.iso 0)
      let msUntil := itemAt item - now
      if msUntil ≤ 0 then
        match itemKind item, outcome with
        | EventKind.buy, SendOutcome.success =>
          let st2 : ExecState := { st1 with
            sentCount := idx + 1
            totalUsdRaised := st1.totalUsdRaised + amountPerMessageUsd }
          ⟨st2, saves1 ++ [st2], some (idx, item), some 1000⟩
        | EventKind.buy, SendOutcome.failure =>
          ⟨st1, saves1, some (idx, item), some 1000⟩
        | EventKind.countdown, SendOutcome.success =>
          let st2 : ExecState := { st1 with sentCount := idx + 1 }
          ⟨st2, saves1 ++ [st2], some (idx, item), some 1000⟩
        | EventKind.countdown, SendOutcome.failure =>
          ⟨st1, saves1, some (idx, item), some 1000⟩
        | EventKind.start, SendOutcome.success =>
          let st2 : ExecState := { st1 with sentCount := idx + 1 }
          ⟨st2, saves1 ++ [st2], some (idx, item), some 1000⟩
        | EventKind.start, SendOutcome.failure =>
          ⟨st1, saves1, some (idx, item), some 1000⟩
        | EventKind.other, _ =>
          let st2 : ExecState := { st1 with sentCount := idx + 1 }
          ⟨st2, saves1 ++ [st2], none, some 1000⟩
      else ⟨st1, saves1, none, some (Min.min msUntil 5000)⟩

/-- Iterate the dispatch check over a list of ticks (corrected-now value
and send outcome per tick), collecting every attempted dispatch with the
cursor index it was sent at.  Models the self-rescheduling timer loop
(src/index.js:835, 840, 854). -/
def runTicks (amountPerMessageUsd : ℚ) (ticks : List (Int × SendOutcome))
    (st : ExecState) : ExecState × List (Nat × RawItem) :=
  match ticks with
  | [] => (st, [])
  | (now, outcome) :: rest =>
    let r := sendNextIfDue amountPerMessageUsd now outcome st
    let tail := runTicks amountPerMessageUsd rest r.state
    (tail.1, (r.dispatched.toList) ++ tail.2)

/-- src/index.js:338 `Math.ceil(config.targetTotalUsd / amountPerMessage)`. -/
def totalMessagesNeeded (targetTotalUsd amountPerMessageUsd : ℚ) : Int :=
  Int.ceil (targetTotalUsd / amountPerMessageUsd)

/-- src/index.js:340-349: initial whole-hour span, floored at 1, expanded
by `ceil((needed - capacity) / maxPerHour)` hours when the span cannot hold
the requested total at `maxPerHour`. -/
def expandedHours (startMs endMs : Int) (maxPerHour : Nat) (needed : Int) : Int :=
  let initialHours := ceilDivInt (endMs - startMs) 3600000
  let hours := Max.max 1 initialHours
  if hours * (maxPerHour : Int) < needed then
    hours + ceilDivInt (needed - hours * (maxPerHour : Int)) ((maxPerHour : Int))
  else hours

/-- One rebalancing pass that adds `diff` events across hours in the given
(shuffled) index order, respecting `maxPerHour` headroom (src/index.js:365-374,
419-428).  Returns the updated allocation and the undistributed remainder. -/
def addPass (maxPerHour : Nat) (order : List Nat) (perHour : List Nat)
    (diff : Nat) : List Nat × Nat :=
  match order with
  | [] => (perHour, diff)
  | i :: rest =>
    if diff = 0 then (perHour, 0)
    else
      let cur := perHour.getD i 0
      if cur < maxPerHour then
        let add := Min.min (maxPerHour - cur) diff
        addPass maxPerHour rest (perHour.set i (cur + add)) (diff - add)
      else addPass maxPerHour rest perHour diff

/-- One rebalancing pass that removes `remaining` events across hours in
the given order, never driving an hour below 0 (src/index.js:376-386,
430-440).  Returns the updated allocation and the unremoved remainder. -/
def subPass (order : List Nat) (perHour : List Nat) (remaining : Nat) :
    List Nat × Nat :=
  match order with
  | [] => (perHour, remaining)
  | i :: rest =>
    if remaining = 0 then (perHour, 0)
    else
      let cur := perHour.getD i 0
      if 0 < cur then
        let r := Min.min cur remaining
        subPass rest (perHour.set i (cur - r)) (remaining - r)
      else subPass rest perHour remaining

/-- src/index.js:392-399: raise every hour below `minPerHour` to the
floor, accumulating the induced deficit. -/
def raisePass (minPerHour : Nat) : List Nat → List Nat × Nat
  | [] => ([], 0)
  | n :: rest =>
    let r := raisePass minPerHour rest
    if n < minPerHour then (minPerHour :: r.1, (minPerHour - n) + r.2)
    else (n :: r.1, r.2)

/-- src/index.js:402-411: repay the floor-raise deficit by taking surplus
(amount above `minPerHour`) from hours in the given order. -/
def repayPass (minPerHour : Nat) (order : List Nat) (perHour : List Nat)
    (deficit : Nat) : List Nat × Nat :=
  match order with
  | [] => (perHour, deficit)
  | i :: rest =>
    if deficit = 0 then (perHour, 0)
    else
      let surplus := perHour.getD i 0 - minPerHour
      if 0 < surplus then
        let take := Min.min surplus deficit
        repayPass minPerHour rest (perHour.set i (perHour.getD i 0 - take)) (deficit - take)
      else repayPass minPerHour rest perHour deficit

/-- src/index.js:357-388: the first exact-total reconciliation: when the
rounded allocation misses the total, clamp to `maxPerHour` and
redistribute the difference (two shuffled orders, one per branch). -/
def firstReconcile (maxPerHour total : Nat) (orderAdd orderSub : List Nat)
    (perHour : List Nat) : List Nat :=
  if perHour.sum ≠ total then
    let clamped := perHour.map fun n => Min.min n maxPerHour
    let ct := clamped.sum
    if ct < total then (addPass maxPerHour orderAdd clamped (total - ct)).1
    else if total < ct then (subPass orderSub clamped (ct - total)).1
    else clamped
  else perHour

/-- src/index.js:390-412: the soft floor to `minPerHour` plus deficit
repayment. -/
def softFloor (minPerHour : Nat) (orderRepay : List Nat) (perHour : List Nat) :
    List Nat :=
  let raised := raisePass minPerHour perHour
  if 0 < raised.2 then (repayPass minPerHour orderRepay raised.1 raised.2).1
  else raised.1

/-- src/index.js:414-442: the final adjust-to-exact-total pass. -/
def finalReconcile (maxPerHour total : Nat) (orderAdd orderSub : List Nat)
    (perHour : List Nat) : List Nat :=
  let sumNow := perHour.sum
  if sumNow ≠ total then
    if sumNow < total then (addPass maxPerHour orderAdd perHour (total - sumNow)).1
    else (subPass orderSub perHour (sumNow - total)).1
  else perHour

/-- src/index.js:354-442: the whole per-hour allocation computation of
`generateSchedule`, starting from the rounded weight-proportional
allocation `perHour0` (src/index.js:354).  The five order lists are the
five `sort(() => Math.random() - 0.5)` shuffles, each a permutation of the
hour indices. -/
def perHourAllocation (minPerHour maxPerHour total : Nat)
    (o1 o2 o3 o4 o5 : List Nat) (perHour0 : List Nat) : List Nat :=
  finalReconcile maxPerHour total o4 o5
    (softFloor minPerHour o3
      (firstReconcile maxPerHour total o1 o2 perHour0))

/-- src/index.js:320-332 `generatePerHourWeights`: the diurnal sinusoid,
weekday bias and `Math.random()` noise are floating-point and
nondeterministic; each hour weight is supplied by the oracle `weight`. -/
def generatePerHourWeights (weight : Nat → ℚ) (hours : Nat) : List ℚ :=
  (List.range hours).map weight

/-- src/index.js:203 `sampleUniqueSecondsWithinHour`: below 3600 requested
seconds the sorted distinct random sample is supplied by the oracle list;
at or above, every second of the hour is emitted. -/
def sampleUniqueSecondsWithinHour (oracle : List Nat) (count : Nat) : List Nat :=
  if 3600 ≤ count then List.range 3600 else oracle

/-- src/index.js:463 `sampleUniqueSeconds` over an arbitrary span. -/
def sampleUniqueSeconds (oracle : List Nat) (count spanSeconds : Nat) : List Nat :=
  let m := Max.max 1 spanSeconds
  if m ≤ count then List.range m else oracle

/-- Randomness oracles threaded through schedule generation: `weight i` is
the i-th hour weight, `o1`-`o5` the five shuffled index orders,
`hourSecs h` the distinct-second sample for hour `h`, and `burstSecs` the
initial-burst second sample. -/
structure RandOracle where
  weight : Nat → ℚ
  o1 : List Nat
  o2 : List Nat
  o3 : List Nat
  o4 : List Nat
  o5 : List Nat
  hourSecs : Nat → List Nat
  burstSecs : List Nat

/-- Consecutive naturals `s, s+1, ..., s+k-1`, the index sequences of the
`for` loops (`for i = 1; i < n; i++` is `natSeq 1 (n-1)`; the radius loop
`for r = 1; r <= 300; r++` is `natSeq 1 300`). -/
def natSeq (s k : Nat) : List Nat :=
  match k with
  | 0 => []
  | k + 1 => s :: natSeq (s + 1) k

/-- Consecutive integers `a, a+1, ..., b` (empty when `b < a`): the
fallback linear scan `for (sec = lbSec; sec <= ubSec; sec++)`. -/
def intRange (a b : Int) : List Int :=
  (List.range (b + 1 - a).toNat).map fun (k : Nat) => a + (k : Int)

/-- JavaScript `Set.add`: membership-only model of insertion. -/
def insertUniq (s : List Int) (x : Int) : List Int :=
  if x ∈ s then s else s ++ [x]

/-- JavaScript `Map.get(k)` with the `|| new Set()` default used at
src/index.js:266. -/
def hsGet (m : List (Int × List Int)) (k : Int) : List Int :=
  match m with
  | [] => []
  | (k2, v) :: rest => if k2 = k then v else hsGet rest k

/-- JavaScript `Map.set(k, v)`. -/
def hsSet (m : List (Int × List Int)) (k : Int) (v : List Int) : List (Int × List Int) :=
  match m with
  | [] => [(k, v)]
  | (k2, v2) :: rest => if k2 = k then (k, v) :: rest else (k2, v2) :: hsSet rest k v

/-- src/index.js:236-241: build the hour-bucket second-of-hour sets. -/
def initHourSecs (times : List Int) : List (Int × List Int) :=
  times.foldl
    (fun m t =>
      hsSet m (floorToHourTs t) (insertUniq (hsGet m (floorToHourTs t)) (secondOfHour t)))
    []

/-- src/index.js:283-293 / 298-307: try one candidate second-of-hour.
Rejects seconds already occupied in the hour and gap values already used
globally; on acceptance returns the new timestamp and its gap. -/
def tryCandidate (used usedSecs : List Int) (prev hourStart : Int)
    (candSec : Int) : Option (Int × Int) :=
  if candSec ∈ usedSecs then none
  else
    let candTs := hourStart + candSec * 1000
    let candDelta := Max.max 1 (jsRound1000 (candTs - prev))
    if candDelta ∈ used then none else some (candTs, candDelta)

/-- src/index.js:278-282: the candidate seconds at radius `r` around
`baseSec`, the upper one first, each filtered by its bound check. -/
def radCandidates (baseSec lbSec ubSec : Int) (r : Nat) : List Int :=
  (if baseSec + (r : Int) ≤ ubSec then [baseSec + (r : Int)] else []) ++
  (if lbSec ≤ baseSec - (r : Int) then [baseSec - (r : Int)] else [])

/-- src/index.js:277-308: expanding-radius search (radius 1..300) followed
by the sequential fallback scan over `[lbSec, ubSec]`. -/
def searchAlternative (used usedSecs : List Int) (prev hourStart : Int)
    (baseSec lbSec ubSec : Int) : Option (Int × Int) :=
  match (natSeq 1 300).findSome?
      (fun r => (radCandidates baseSec lbSec ubSec r).findSome?
        (tryCandidate used usedSecs prev hourStart)) with
  | some res => some res
  | none => (intRange lbSec ubSec).findSome? (tryCandidate used usedSecs prev hourStart)

/-- State of the src/index.js:229 `enforceUniqueIntervals` loop: the
timestamp array being adjusted in place, the globally used gap values, and
the per-hour occupied seconds. -/
structure EUState where
  times : List Int
  usedIntervals : List Int
  hourToSeconds : List (Int × List Int)

/-- One iteration of the src/index.js:244-315 loop at index `i`. -/
def processIndex (st : EUState) (i : Nat) : EUState :=
  let prev := st.times.getD (i - 1) 0
  let curr := st.times.getD i 0
  let deltaSec := Max.max 1 (jsRound1000 (curr - prev))
  if deltaSec ∈ st.usedIntervals then
    let hourKey := floorToHourTs curr
    let hourStart := hourKey
    let hourEnd := hourStart + 3600000 - 1
    let lowerBound := Max.max hourStart (prev + 1000)
    let upperBound :=
      if i + 1 < st.times.length then Min.min hourEnd (st.times.getD (i + 1) 0 - 1000)
      else hourEnd
    if upperBound < lowerBound then
      { st with usedIntervals := insertUniq st.usedIntervals deltaSec }
    else
      let currentSecOfHour := secondOfHour curr
      let usedSecs := (hsGet st.hourToSeconds hourKey).filter fun s => s != currentSecOfHour
      let baseSec := secondOfHour curr
      let lbSec := ceilDivInt (lowerBound - hourStart) 1000
      let ubSec := floorDivInt (upperBound - hourStart) 1000
      match searchAlternative st.usedIntervals usedSecs prev hourStart baseSec lbSec ubSec with
      | some res =>
        { times := st.times.set i res.1
          usedIntervals := insertUniq st.usedIntervals res.2
          hourToSeconds := hsSet st.hourToSeconds hourKey (insertUniq usedSecs (secondOfHour res.1)) }
      | none =>
        { times := st.times.set i curr
          usedIntervals := insertUniq st.usedIntervals deltaSec
          hourToSeconds := hsSet st.hourToSeconds hourKey (insertUniq usedSecs (secondOfHour curr)) }
  else { st with usedIntervals := insertUniq st.usedIntervals deltaSec }

/-- src/index.js:229 `enforceUniqueIntervals`, on millisecond instants
(the ISO conversion at entry and exit is external presentation). -/
def enforceUniqueIntervals (times0 : List Int) : List Int :=
  if times0.length ≤ 1 then times0
  else ((natSeq 1 (times0.length - 1)).foldl processIndex
    ⟨times0, [], initHourSecs times0⟩).times

/-- JavaScript `Array.prototype.sort` is a stable sort; on millisecond
instants (equivalently same-format ISO strings) the chronological stable
sort is insertion sort. -/
def sortTimes (l : List Int) : List Int :=
  List.insertionSort (fun a b : Int => a ≤ b) l

/-- Stable sort of schedule entries by timestamp
(src/index.js:550 `entries.sort((a, b) => new Date(a.at) - new Date(b.at))`). -/
def sortByAt (l : List RawItem) : List RawItem :=
  List.insertionSort (fun a b : RawItem => itemAt a ≤ itemAt b) l

/-- src/index.js:334 `generateSchedule`: returns the adjusted buy-instant
list, the effective end, and the total message count.  Randomness is
drawn from the oracle `r`. -/
def generateSchedule (r : RandOracle) (config : AppConfig) : List Int × Int × Int :=
  let start := config.startTimeUtc
  let amountPerMessage := config.amountPerMessageUsd
  let tmn := totalMessagesNeeded config.targetTotalUsd amountPerMessage
  let hours := (expandedHours start config.endTimeUtc config.maxPerHour tmn).toNat
  let weights := generatePerHourWeights r.weight hours
  let sumWeights := weights.sum
  let perHour0 := weights.map fun w => (jsRoundQ (w / sumWeights * (tmn : ℚ))).toNat
  let perHour := perHourAllocation config.minPerHour config.maxPerHour tmn.toNat
    r.o1 r.o2 r.o3 r.o4 r.o5 perHour0
  let schedule := (List.range hours).flatMap fun h =>
    let hourStart := start + (h : Int) * 3600000
    (sampleUniqueSecondsWithinHour (r.hourSecs h) (perHour.getD h 0)).map
      fun s => hourStart + (s : Int) * 1000
  let uniqueSchedule := enforceUniqueIntervals (sortTimes schedule)
  (uniqueSchedule, start + (hours : Int) * 3600000, tmn)

/-- src/index.js:484-543: the special-phase block of `generateFullSchedule`
(countdown markers at fixed minute offsets, the launch marker, the initial
burst), returning the special entries, the remaining ordinary-event count,
and the normal-schedule start instant.  The pre-rendered countdown/launch
payloads are presentation data and not modelled. -/
def specialPhaseBase (r : RandOracle) (config : AppConfig) : List RawItem × Int × Int :=
  let tmn := totalMessagesNeeded config.targetTotalUsd config.amountPerMessageUsd
  match config.specialPhase with
  | some sp =>
    if sp.enabled then
      let presaleStart := sp.presaleStartUtc
      let initialBurstMinutes := if sp.initialBurstMinutes = 0 then 10 else sp.initialBurstMinutes
      let initialBurstCount := sp.initialBurstCount
      let countdown := ([59, 30, 5, 4, 3, 2, 1] : List Nat).map fun m =>
        RawItem.ev (presaleStart - (m : Int) * 60000) EventKind.countdown
      let entries1 := countdown ++ [RawItem.ev presaleStart EventKind.start]
      if 0 < initialBurstCount then
        let burstStart := presaleStart
        let burstSpanSec := initialBurstMinutes * 60
        let secs := sampleUniqueSeconds r.burstSecs initialBurstCount burstSpanSec
        let burstEntries := secs.map fun s =>
          RawItem.ev (burstStart + (s : Int) * 1000) EventKind.buy
        (entries1 ++ burstEntries, tmn - Min.min (initialBurstCount : Int) tmn,
          burstStart + (burstSpanSec : Int) * 1000)
      else (entries1, tmn, presaleStart)
    else ([], tmn, config.startTimeUtc)
  | none => ([], tmn, config.startTimeUtc)

/-- src/index.js:475 `generateFullSchedule`: special phase merged with the
ordinary events produced by `generateSchedule`. -/
def generateFullSchedule (r : RandOracle) (config : AppConfig) : List RawItem × Int :=
  let amountPerMessage := config.amountPerMessageUsd
  let base := specialPhaseBase r config
  let entries := base.1
  let remainingMessages := base.2.1
  let normalStart := base.2.2
  if 0 < remainingMessages then
    let normalConfig := { config with
      startTimeUtc := normalStart
      targetTotalUsd := (remainingMessages : ℚ) * amountPerMessage }
    let g := generateSchedule r normalConfig
    let all := entries ++ g.1.map fun t => RawItem.ev t EventKind.buy
    (sortByAt all, g.2.1)
  else
    let sorted := sortByAt entries
    (sorted, match sorted.getLast? with
      | some e => itemAt e
      | none => config.startTimeUtc)

/-- The freshly generated execution state (src/index.js:642-649). -/
def initialState (configSignature : ConfigSignature) (schedule : List RawItem)
    (startRaisedUsd : ℚ) : StoredState :=
  ⟨configSignature,
   { schedule := schedule
     sentCount := 0
     totalUsdRaised := startRaisedUsd
     completed := false }⟩

/-- Amount by which one dispatch-check invocation raises the running
total: exactly one per-event amount when (and only when) a buy send
succeeded (src/index.js:785-790), zero otherwise. -/
def dispatchDelta (amountPerMessageUsd : ℚ) (outcome : SendOutcome)
    (r : TickResult) : ℚ :=
  match r.dispatched with
  | some (_, item) =>
    if itemKind item = EventKind.buy ∧ outcome = SendOutcome.success
    then amountPerMessageUsd else 0
  | none => 0

/-- A concrete randomness oracle used for counterexample evaluations with a
single hour and a single event. -/
def sampleOracle : RandOracle :=
  { weight := fun _ => 1
    o1 := [0], o2 := [0], o3 := [0], o4 := [0], o5 := [0]
    hourSecs := fun _ => [0]
    burstSecs := [] }

/-- A concrete configuration (one hour, one 100-USD event, no special
phase) used for counterexample evaluations. -/
def sampleConfig : AppConfig :=
  { startTimeUtc := 0
    endTimeUtc := 3600000
    targetTotalUsd := 100
    amountPerMessageUsd := 100
    minPerHour := 1
    maxPerHour := 60
    tokensPerHundred := 100
    startRaisedUsd := 0
    enforceHardStopAtEnd := false
    botToken := 1
    targetChatId := 1
    specialPhase := none }

/-- A variant of `sampleConfig` whose special phase consumes the whole
event budget (burst of 5 against a 1-event total). -/
def specialSampleConfig : AppConfig :=
  { sampleConfig with
    specialPhase := some
      { enabled := true
        countdownStartUtc := -3600000
        presaleStartUtc := 0
        initialBurstMinutes := 1
        initialBurstCount := 5 } }

/-! ### General list helper lemmas -/

lemma getD_set_self {α : Type} (l : List α) (i : Nat) (v d : α) (h : i < l.length) :
    (l.set i v).getD i d = v := by
  simp [List.getD, List.getElem?_set_self, h]

lemma getD_set_ne {α : Type} (l : List α) (i j : Nat) (v d : α) (h : j ≠ i) :
    (l.set i v).getD j d = l.getD j d := by
  simp [List.getD, List.getElem?_set, Ne.symm h]

lemma getD_default_of_le {α : Type} (l : List α) (i : Nat) (d : α) (h : l.length ≤ i) :
    l.getD i d = d := by
  simp [List.getD, List.getElem?_eq_none, h]

lemma getD_mem {α : Type} (l : List α) (i : Nat) (d : α) (h : i < l.length) :
    l.getD i d ∈ l := by
  rw [List.getD_eq_getElem l d h]
  exact List.getElem_mem h

lemma lt_length_of_getD_pos (l : List Nat) (i : Nat) (h : 0 < l.getD i 0) :
    i < l.length := by
  by_contra hc
  rw [getD_default_of_le l i 0 (by omega)] at h
  omega

lemma sum_set_nat : ∀ (l : List Nat) (i v : Nat), i < l.length →
    (l.set i v).sum + l.getD i 0 = l.sum + v := by
  intro l
  induction l with
  | nil => intro i v h; simp at h
  | cons a t ih =>
    intro i v h
    cases i with
    | zero => simp only [List.set, List.sum_cons, List.getD_cons_zero]; omega
    | succ n =>
      have hn : n < t.length := by simpa using h
      have := ih n v hn
      simp only [List.set, List.sum_cons, List.getD_cons_succ]
      omega

lemma sum_getD_range : ∀ (l : List Nat),
    ((List.range l.length).map fun i => l.getD i 0).sum = l.sum := by
  intro l
  induction l with
  | nil => simp
  | cons a t ih =>
    have : List.range (t.length + 1) = 0 :: (List.range t.length).map (· + 1) :=
      List.range_succ_eq_map t.length
    simp only [List.length_cons, this, List.map_cons, List.map_map, List.sum_cons]
    have hmap : ((List.range t.length).map ((fun i => (a :: t).getD i 0) ∘ (· + 1))).sum
        = ((List.range t.length).map fun i => t.getD i 0).sum := by
      apply congrArg
      apply List.map_congr_left
      intro x _
      simp [List.getD]
    rw [hmap, ih]
    simp [List.getD]

lemma capacity_range_ge (m : Nat) : ∀ (l : List Nat),
    l.sum + ((List.range l.length).map fun i => m - l.getD i 0).sum ≥ l.length * m := by
  intro l
  induction l with
  | nil => simp
  | cons a t ih =>
    have hr : List.range (t.length + 1) = 0 :: (List.range t.length).map (· + 1) :=
      List.range_succ_eq_map t.length
    simp only [List.length_cons, hr, List.map_cons, List.map_map, List.sum_cons]
    have hmap : ((List.range t.length).map ((fun i => m - (a :: t).getD i 0) ∘ (· + 1))).sum
        = ((List.range t.length).map fun i => m - t.getD i 0).sum := by
      apply congrArg
      apply List.map_congr_left
      intro x _
      simp [List.getD]
    rw [hmap]
    have hgd : (a :: t).getD 0 0 = a := by simp [List.getD]
    rw [hgd]
    have := ih
    have hs : (t.length + 1) * m = t.length * m + m := by ring
    omega

/-! ### Rebalancing pass lemmas (src/index.js:354-442) -/

lemma addPass_length (m : Nat) : ∀ (o p : List Nat) (d : Nat),
    (addPass m o p d).1.length = p.length := by
  intro o
  induction o with
  | nil => intro p d; simp [addPass]
  | cons i rest ih =>
    intro p d
    simp only [addPass]
    split
    · rfl
    · split
      · rw [ih]; exact List.length_set ..
      · exact ih p d

lemma addPass_sum (m : Nat) : ∀ (o p : List Nat) (d : Nat),
    (∀ i ∈ o, i < p.length) →
    (addPass m o p d).1.sum + (addPass m o p d).2 = p.sum + d := by
  intro o
  induction o with
  | nil => intro p d _; simp [addPass]
  | cons i rest ih =>
    intro p d hidx
    have hi : i < p.length := hidx i (by simp)
    simp only [addPass]
    split
    · simp only [*]
    · split
      · have hset := sum_set_nat p i
          (p.getD i 0 + Min.min (m - p.getD i 0) d) hi
        have hr := ih (p.set i (p.getD i 0 + Min.min (m - p.getD i 0) d))
          (d - Min.min (m - p.getD i 0) d)
          (by intro j hj; rw [List.length_set]; exact hidx j (by simp [hj]))
        have hmin : Min.min (m - p.getD i 0) d ≤ d := Nat.min_le_right _ _
        omega
      · exact ih p d fun j hj => hidx j (by simp [hj])

lemma addPass_complete (m : Nat) : ∀ (o p : List Nat) (d : Nat),
    o.Nodup → (∀ i ∈ o, i < p.length) →
    d ≤ (o.map fun i => m - p.getD i 0).sum →
    (addPass m o p d).2 = 0 := by
  intro o
  induction o with
  | nil => intro p d _ _ hcap; simp at hcap; simp [addPass, hcap]
  | cons i rest ih =>
    intro p d hnd hidx hcap
    have hi : i < p.length := hidx i (by simp)
    have hnd2 := List.nodup_cons.mp hnd
    simp only [addPass]
    split
    · rfl
    · rename_i hd0
      simp only [List.map_cons, List.sum_cons] at hcap
      split
      · rename_i hcur
        set v := p.getD i 0 + Min.min (m - p.getD i 0) d with hv
        have hmap : (rest.map fun j => m - (p.set i v).getD j 0).sum
            = (rest.map fun j => m - p.getD j 0).sum := by
          apply congrArg
          apply List.map_congr_left
          intro j hj
          have hne : j ≠ i := fun hji => hnd2.1 (hji ▸ hj)
          rw [getD_set_ne p i j v 0 hne]
        apply ih (p.set i v) (d - Min.min (m - p.getD i 0) d) hnd2.2
        · intro j hj; rw [List.length_set]; exact hidx j (by simp [hj])
        · rw [hmap]; omega
      · rename_i hcur
        apply ih p d hnd2.2 (fun j hj => hidx j (by simp [hj]))
        omega

lemma addPass_le (m : Nat) : ∀ (o p : List Nat) (d : Nat),
    (∀ x ∈ p, x ≤ m) → ∀ x ∈ (addPass m o p d).1, x ≤ m := by
  intro o
  induction o with
  | nil => intro p d hp; simpa [addPass] using hp
  | cons i rest ih =>
    intro p d hp
    simp only [addPass]
    split
    · exact hp
    · split
      · rename_i hcur
        apply ih
        intro x hx
        rcases List.mem_or_eq_of_mem_set hx with hmem | hv
        · exact hp x hmem
        · subst hv
          have := Nat.min_le_left (m - p.getD i 0) d
          omega
      · exact ih p d hp

lemma subPass_length : ∀ (o p : List Nat) (r : Nat),
    (subPass o p r).1.length = p.length := by
  intro o
  induction o with
  | nil => intro p r; simp [subPass]
  | cons i rest ih =>
    intro p r
    simp only [subPass]
    split
    · rfl
    · split
      · rw [ih]; exact List.length_set ..
      · exact ih p r

lemma subPass_sum : ∀ (o p : List Nat) (r : Nat),
    (subPass o p r).1.sum + r = p.sum + (subPass o p r).2 := by
  intro o
  induction o with
  | nil => intro p r; simp [subPass]
  | cons i rest ih =>
    intro p r
    simp only [subPass]
    split
    · simp only [*]
    · split
      · rename_i hcur
        have hi : i < p.length := lt_length_of_getD_pos p i hcur
        have hset := sum_set_nat p i (p.getD i 0 - Min.min (p.getD i 0) r) hi
        have hr := ih (p.set i (p.getD i 0 - Min.min (p.getD i 0) r))
          (r - Min.min (p.getD i 0) r)
        have h1 : Min.min (p.getD i 0) r ≤ p.getD i 0 := Nat.min_le_left _ _
        have h2 : Min.min (p.getD i 0) r ≤ r := Nat.min_le_right _ _
        omega
      · exact ih p r

lemma subPass_complete : ∀ (o p : List Nat) (r : Nat),
    o.Nodup → (∀ i ∈ o, i < p.length) →
    r ≤ (o.map fun i => p.getD i 0).sum →
    (subPass o p r).2 = 0 := by
  intro o
  induction o with
  | nil => intro p r _ _ hcap; simp at hcap; simp [subPass, hcap]
  | cons i rest ih =>
    intro p r hnd hidx hcap
    have hnd2 := List.nodup_cons.mp hnd
    simp only [List.map_cons, List.sum_cons] at hcap
    simp only [subPass]
    split
    · rfl
    · rename_i hr0
      split
      · rename_i hcur
        set v := p.getD i 0 - Min.min (p.getD i 0) r with hv
        have hmap : (rest.map fun j => (p.set i v).getD j 0).sum
            = (rest.map fun j => p.getD j 0).sum := by
          apply congrArg
          apply List.map_congr_left
          intro j hj
          have hne : j ≠ i := fun hji => hnd2.1 (hji ▸ hj)
          rw [getD_set_ne p i j v 0 hne]
        apply ih (p.set i v) (r - Min.min (p.getD i 0) r) hnd2.2
        · intro j hj; rw [List.length_set]; exact hidx j (by simp [hj])
        · rw [hmap]
          have h1 : Min.min (p.getD i 0) r ≤ p.getD i 0 := Nat.min_le_left _ _
          omega
      · rename_i hcur
        apply ih p r hnd2.2 (fun j hj => hidx j (by simp [hj]))
        omega

lemma subPass_le (m : Nat) : ∀ (o p : List Nat) (r : Nat),
    (∀ x ∈ p, x ≤ m) → ∀ x ∈ (subPass o p r).1, x ≤ m := by
  intro o
  induction o with
  | nil => intro p r hp; simpa [subPass] using hp
  | cons i rest ih =>
    intro p r hp
    simp only [subPass]
    split
    · exact hp
    · split
      · rename_i hcur
        apply ih
        intro x hx
        rcases List.mem_or_eq_of_mem_set hx with hmem | hv
        · exact hp x hmem
        · subst hv
          have hi : i < p.length := lt_length_of_getD_pos p i hcur
          have := hp (p.getD i 0) (getD_mem p i 0 hi)
          omega
      · exact ih p r hp

lemma raisePass_length (mn : Nat) : ∀ (p : List Nat),
    (raisePass mn p).1.length = p.length := by
  intro p
  induction p with
  | nil => simp [raisePass]
  | cons a t ih =>
    simp only [raisePass]
    split
    · simpa using ih
    · simpa using ih

lemma raisePass_le (mn m : Nat) (hmn : mn ≤ m) : ∀ (p : List Nat),
    (∀ x ∈ p, x ≤ m) → ∀ x ∈ (raisePass mn p).1, x ≤ m := by
  intro p
  induction p with
  | nil => intro hp; simp [raisePass]
  | cons a t ih =>
    intro hp
    simp only [raisePass]
    split
    · intro y hy
      rcases List.mem_cons.mp hy with hv | hmem
      · omega
      · exact ih (fun z hz => hp z (by simp [hz])) y hmem
    · intro y hy
      rcases List.mem_cons.mp hy with hv | hmem
      · rw [hv]; exact hp a (by simp)
      · exact ih (fun z hz => hp z (by simp [hz])) y hmem

lemma repayPass_length (mn : Nat) : ∀ (o p : List Nat) (d : Nat),
    (repayPass mn o p d).1.length = p.length := by
  intro o
  induction o with
  | nil => intro p d; simp [repayPass]
  | cons i rest ih =>
    intro p d
    simp only [repayPass]
    split
    · rfl
    · split
      · rw [ih]; exact List.length_set ..
      · exact ih p d

lemma repayPass_le (mn m : Nat) : ∀ (o p : List Nat) (d : Nat),
    (∀ x ∈ p, x ≤ m) → ∀ x ∈ (repayPass mn o p d).1, x ≤ m := by
  intro o
  induction o with
  | nil => intro p d hp; simpa [repayPass] using hp
  | cons i rest ih =>
    intro p d hp
    simp only [repayPass]
    split
    · exact hp
    · split
      · rename_i hsur
        apply ih
        intro x hx
        rcases List.mem_or_eq_of_mem_set hx with hmem | hv
        · exact hp x hmem
        · subst hv
          have hpos : 0 < p.getD i 0 := by omega
          have hi : i < p.length := lt_length_of_getD_pos p i hpos
          have := hp (p.getD i 0) (getD_mem p i 0 hi)
          omega
      · exact ih p d hp

lemma firstReconcile_length (m T : Nat) (o1 o2 p : List Nat) :
    (firstReconcile m T o1 o2 p).length = p.length := by
  simp only [firstReconcile]
  split
  · split
    · rw [addPass_length, List.length_map]
    · split
      · rw [subPass_length, List.length_map]
      · rw [List.length_map]
  · rfl

lemma softFloor_length (mn : Nat) (o3 p : List Nat) :
    (softFloor mn o3 p).length = p.length := by
  simp only [softFloor]
  split
  · rw [repayPass_length, raisePass_length]
  · rw [raisePass_length]

lemma finalReconcile_sum (m T : Nat) (o4 o5 p : List Nat)
    (h4 : o4.Perm (List.range p.length)) (h5 : o5.Perm (List.range p.length))
    (hcap : T ≤ p.length * m) :
    (finalReconcile m T o4 o5 p).sum = T := by
  have hidx4 : ∀ i ∈ o4, i < p.length := by
    intro i hi
    exact List.mem_range.mp (h4.mem_iff.mp hi)
  have hidx5 : ∀ i ∈ o5, i < p.length := by
    intro i hi
    exact List.mem_range.mp (h5.mem_iff.mp hi)
  have hnd4 : o4.Nodup := h4.nodup_iff.mpr (List.nodup_range _)
  have hnd5 : o5.Nodup := h5.nodup_iff.mpr (List.nodup_range _)
  simp only [finalReconcile]
  split
  · rename_i hne
    split
    · rename_i hlt
      have hcapeq : (o4.map fun i => m - p.getD i 0).sum
          = ((List.range p.length).map fun i => m - p.getD i 0).sum :=
        (h4.map _).sum_eq
      have hge := capacity_range_ge m p
      have hzero := addPass_complete m o4 p (T - p.sum) hnd4 hidx4
        (by rw [hcapeq]; omega)
      have hsum := addPass_sum m o4 p (T - p.sum) hidx4
      omega
    · rename_i hge
      have hcapeq : (o5.map fun i => p.getD i 0).sum
          = ((List.range p.length).map fun i => p.getD i 0).sum :=
        (h5.map _).sum_eq
      have hr := sum_getD_range p
      have hzero := subPass_complete o5 p (p.sum - T) hnd5 hidx5
        (by rw [hcapeq, hr]; omega)
      have hsum := subPass_sum o5 p (p.sum - T)
      omega
  · rename_i heq
    omega

lemma ceilDivInt_mul_ge (a b : Int) (hb : 0 < b) : a ≤ ceilDivInt a b * b := by
  have h1 : b * ((-a).ediv b) + (-a).emod b = -a := Int.ediv_add_emod _ _
  have h2 : 0 ≤ (-a).emod b := Int.emod_nonneg _ (ne_of_gt hb)
  simp only [ceilDivInt]
  have h3 : -((-a).ediv b) * b = -(b * ((-a).ediv b)) := by ring
  omega

lemma ceilDivInt_nonneg (a b : Int) (ha : 0 ≤ a) (hb : 0 < b) :
    0 ≤ ceilDivInt a b := by
  rcases le_or_lt 0 (ceilDivInt a b) with h | h
  · exact h
  · exfalso
    have h1 := ceilDivInt_mul_ge a b hb
    have h2 : ceilDivInt a b * b < 0 := mul_neg_of_neg_of_pos h hb
    omega

lemma expandedHours_spec (s e : Int) (m : Nat) (needed : Int) (hm : 0 < m) :
    needed ≤ expandedHours s e m needed * (m : Int) ∧
    1 ≤ expandedHours s e m needed := by
  simp only [expandedHours]
  split
  · rename_i hlt
    set hours := Max.max 1 (ceilDivInt (e - s) 3600000) with hh
    have hhours : 1 ≤ hours := le_max_left _ _
    have hd : 0 < needed - hours * (m : Int) := by omega
    have hc := ceilDivInt_mul_ge (needed - hours * (m : Int)) (m : Int)
      (by exact_mod_cast hm)
    have hcn := ceilDivInt_nonneg (needed - hours * (m : Int)) (m : Int)
      (le_of_lt hd) (by exact_mod_cast hm)
    constructor
    · have hexp : (hours + ceilDivInt (needed - hours * (m : Int)) (m : Int)) * (m : Int)
          = hours * (m : Int) + ceilDivInt (needed - hours * (m : Int)) (m : Int) * (m : Int) := by
        ring
      omega
    · omega
  · rename_i hge
    exact ⟨by omega, le_max_left _ _⟩

/-- C1: with the hour span pre-expanded by src/index.js:344-349 so that
`hours * maxPerHour` can hold `ceil(targetTotalUsd / amountPerMessageUsd)`
events, the per-hour allocation of `generateSchedule` sums exactly to that
count after the final reconciliation pass (src/index.js:414-442), for every
weight-rounding outcome and every shuffled redistribution order; and for
the full plan the inner `generateSchedule` call receives exactly the total
minus the special-phase-consumed events, since
`ceil(remaining * amount / amount) = remaining`. -/
theorem generateSchedule_allocation_sum_exact
    (config : AppConfig) (o1 o2 o3 o4 o5 perHour0 : List Nat)
    (hmax : 0 < config.maxPerHour)
    (hamt : 0 < config.amountPerMessageUsd)
    (hlen : perHour0.length =
      (expandedHours config.startTimeUtc config.endTimeUtc config.maxPerHour
        (totalMessagesNeeded config.targetTotalUsd config.amountPerMessageUsd)).toNat)
    (h4 : o4.Perm (List.range perHour0.length))
    (h5 : o5.Perm (List.range perHour0.length)) :
    (perHourAllocation config.minPerHour config.maxPerHour
        (totalMessagesNeeded config.targetTotalUsd config.amountPerMessageUsd).toNat
        o1 o2 o3 o4 o5 perHour0).sum
      = (totalMessagesNeeded config.targetTotalUsd config.amountPerMessageUsd).toNat ∧
    ∀ remaining : Int,
      totalMessagesNeeded ((remaining : ℚ) * config.amountPerMessageUsd)
        config.amountPerMessageUsd = remaining := by
  constructor
  · set tmn := totalMessagesNeeded config.targetTotalUsd config.amountPerMessageUsd with htmn
    set q := softFloor config.minPerHour o3
      (firstReconcile config.maxPerHour tmn.toNat o1 o2 perHour0) with hq
    have hqlen : q.length = perHour0.length := by
      rw [hq, softFloor_length, firstReconcile_length]
    have hspec := expandedHours_spec config.startTimeUtc config.endTimeUtc
      config.maxPerHour tmn hmax
    have hcap : tmn.toNat ≤ q.length * config.maxPerHour := by
      rcases le_or_lt tmn 0 with hle | hpos
      · rw [Int.toNat_of_nonpos hle]
        exact Nat.zero_le _
      · have hT : ((tmn.toNat : Int)) = tmn := Int.toNat_of_nonneg (le_of_lt hpos)
        have hexp0 : 0 ≤ expandedHours config.startTimeUtc config.endTimeUtc
            config.maxPerHour tmn := by omega
        have hH : (((expandedHours config.startTimeUtc config.endTimeUtc
            config.maxPerHour tmn).toNat : Int))
            = expandedHours config.startTimeUtc config.endTimeUtc config.maxPerHour tmn :=
          Int.toNat_of_nonneg hexp0
        zify
        rw [hqlen, hlen]
        push_cast [hH]
        omega
    have := finalReconcile_sum config.maxPerHour tmn.toNat o4 o5 q
      (by rw [hqlen]; exact h4) (by rw [hqlen]; exact h5) hcap
    simpa [perHourAllocation] using this
  · intro remaining
    have hne : config.amountPerMessageUsd ≠ 0 := ne_of_gt hamt
    simp only [totalMessagesNeeded]
    rw [mul_div_cancel_right₀ _ hne]
    exact Int.ceil_intCast remaining

/-- Witness for `generateSchedule_allocation_sum_exact` at the concrete
one-hour configuration with two rounded events and identity orders. -/
theorem generateSchedule_allocation_sum_exact_witness :
    (perHourAllocation sampleConfig.minPerHour sampleConfig.maxPerHour
        (totalMessagesNeeded sampleConfig.targetTotalUsd sampleConfig.amountPerMessageUsd).toNat
        [0] [0] [0] [0] [0] [2]).sum
      = (totalMessagesNeeded sampleConfig.targetTotalUsd sampleConfig.amountPerMessageUsd).toNat ∧
    totalMessagesNeeded (((5 : Int) : ℚ) * sampleConfig.amountPerMessageUsd)
      sampleConfig.amountPerMessageUsd = 5 := by
  have htm : totalMessagesNeeded sampleConfig.targetTotalUsd
      sampleConfig.amountPerMessageUsd = 1 := by
    norm_num [totalMessagesNeeded, sampleConfig]
  have h := generateSchedule_allocation_sum_exact sampleConfig [0] [0] [0] [0] [0] [2]
    (by norm_num [sampleConfig])
    (by norm_num [sampleConfig])
    (by rw [htm]; norm_num [sampleConfig, expandedHours, ceilDivInt])
    (by decide)
    (by decide)
  exact ⟨h.1, h.2 5⟩

/-- C3 fails on the code: with a pre-expanded feasible span
(`total ≤ hours * maxPerHour`) and shuffle orders that are permutations of
the hour indices, the reconciled allocation can fall below `minPerHour`
(first example: one hour, min 30, max 60, total 10 yields allocation 10)
and can exceed `maxPerHour` (second example: two hours, min 30, max 60,
total 100, rounded allocation [100, 0] yields [70, 30]). -/
theorem perHourAllocation_bounds_counterexample :
    (perHourAllocation 30 60 10 [0] [0] [0] [0] [0] [10]).getD 0 0 < 30 ∧
    10 ≤ 1 * 60 ∧ ([0] : List Nat).Perm (List.range 1) ∧
    60 < (perHourAllocation 30 60 100 [0, 1] [0, 1] [0, 1] [0, 1] [0, 1] [100, 0]).getD 0 0 ∧
    100 ≤ 2 * 60 ∧ ([0, 1] : List Nat).Perm (List.range 2) := by
  decide

/-- C3 amended: after the reconciliation passes every allocation is a
natural number (hence ≥ 0), and is at most `maxPerHour` provided the
rounded allocation missed the exact total (so the clamping branch of
src/index.js:361 executed) and `minPerHour ≤ maxPerHour`; the `minPerHour`
floor itself is only best-effort (src/index.js:391 "not guaranteed across
all distributions") and can be violated. -/
theorem perHourAllocation_max_bound
    (mn mx T : Nat) (o1 o2 o3 o4 o5 p0 : List Nat)
    (hmn : mn ≤ mx) (hne : p0.sum ≠ T) :
    ∀ x ∈ perHourAllocation mn mx T o1 o2 o3 o4 o5 p0, x ≤ mx := by
  have h1 : ∀ x ∈ firstReconcile mx T o1 o2 p0, x ≤ mx := by
    simp only [firstReconcile, if_pos hne]
    have hcl : ∀ x ∈ p0.map (fun n => Min.min n mx), x ≤ mx := by
      intro x hx
      rcases List.mem_map.mp hx with ⟨a, _, ha⟩
      rw [← ha]
      exact min_le_right _ _
    split
    · exact addPass_le mx o1 _ _ hcl
    · split
      · exact subPass_le mx o2 _ _ hcl
      · exact hcl
  have h2 : ∀ x ∈ softFloor mn o3 (firstReconcile mx T o1 o2 p0), x ≤ mx := by
    simp only [softFloor]
    have hraise := raisePass_le mn mx hmn (firstReconcile mx T o1 o2 p0) h1
    split
    · exact repayPass_le mn mx o3 _ _ hraise
    · exact hraise
  simp only [perHourAllocation, finalReconcile]
  split
  · split
    · exact addPass_le mx o4 _ _ h2
    · exact subPass_le mx o5 _ _ h2
  · exact h2

/-- Witness for `perHourAllocation_max_bound`: one hour, min 30, max 60,
total 10, rounded allocation [9] (missing the total). -/
theorem perHourAllocation_max_bound_witness :
    ((30 : Nat) ≤ 60 ∧ ([9] : List Nat).sum ≠ 10) ∧
    ∀ x ∈ perHourAllocation 30 60 10 [0] [0] [0] [0] [0] [9], x ≤ 60 :=
  ⟨by decide, perHourAllocation_max_bound 30 60 10 [0] [0] [0] [0] [0] [9]
    (by decide) (by decide)⟩

/-! ### Dispatch-loop lemmas (src/index.js:743-841) -/

lemma skipPast_eq (now : Int) (st : ExecState) :
    skipPast now st =
      if st.sentCount < st.schedule.length ∧
          itemAt (st.schedule.getD st.sentCount (RawItem.iso 0)) - now
            < -MAX_ALLOWED_DELAY_MS then
        if st.schedule.length ≤ st.sentCount + 1 then
          ({ st with sentCount := st.sentCount + 1, completed := true },
           [{ st with sentCount := st.sentCount + 1 },
            { st with sentCount := st.sentCount + 1, completed := true }], true)
        else
          ((skipPast now { st with sentCount := st.sentCount + 1 }).1,
           { st with sentCount := st.sentCount + 1 }
             :: (skipPast now { st with sentCount := st.sentCount + 1 }).2.1,
           (skipPast now { st with sentCount := st.sentCount + 1 }).2.2)
      else (st, [], false) := by
  simp only [skipPast]
  cases hf : st.schedule.length - st.sentCount with
  | zero =>
    have hns : ¬(st.sentCount < st.schedule.length ∧
        itemAt (st.schedule.getD st.sentCount (RawItem.iso 0)) - now
          < -MAX_ALLOWED_DELAY_MS) := by
      intro hc
      omega
    simp only [skipPastAux, if_neg hns]
  | succ n =>
    simp only [skipPastAux]
    split
    · rename_i hg
      split
      · rfl
      · rename_i hend
        have hn : st.schedule.length - (st.sentCount + 1) = n := by omega
        simp only [hn]
    · rfl

lemma skipPast_of_fresh (now : Int) (st : ExecState)
    (h : ¬(st.sentCount < st.schedule.length ∧
      itemAt (st.schedule.getD st.sentCount (RawItem.iso 0)) - now
        < -MAX_ALLOWED_DELAY_MS)) :
    skipPast now st = (st, [], false) := by
  rw [skipPast_eq, if_neg h]

lemma skipPastAux_spec (now : Int) : ∀ (fuel : Nat) (st : ExecState),
    (skipPastAux now st fuel).1.schedule = st.schedule ∧
    st.sentCount ≤ (skipPastAux now st fuel).1.sentCount ∧
    (skipPastAux now st fuel).1.totalUsdRaised = st.totalUsdRaised ∧
    (st.sentCount ≤ st.schedule.length →
      (skipPastAux now st fuel).1.sentCount ≤ st.schedule.length) ∧
    ((skipPastAux now st fuel).2.2 = true →
      (skipPastAux now st fuel).1.completed = true ∧
      (skipPastAux now st fuel).1.sentCount = st.schedule.length) ∧
    ((skipPastAux now st fuel).2.2 = false →
      (skipPastAux now st fuel).1.completed = st.completed) ∧
    (st.schedule.length - st.sentCount ≤ fuel →
      (skipPastAux now st fuel).2.2 = false →
      st.sentCount < st.schedule.length →
      (skipPastAux now st fuel).1.sentCount < st.schedule.length ∧
      ¬(itemAt (st.schedule.getD (skipPastAux now st fuel).1.sentCount (RawItem.iso 0))
          - now < -MAX_ALLOWED_DELAY_MS)) := by
  intro fuel
  induction fuel with
  | zero =>
    intro st
    refine ⟨rfl, le_refl _, rfl, fun h => h, ?_, fun _ => rfl, ?_⟩
    · intro h; simp [skipPastAux] at h
    · intro hf _ hlt; omega
  | succ f ih =>
    intro st
    simp only [skipPastAux]
    split
    · rename_i hg
      split
      · rename_i hend
        refine ⟨rfl, by simp, rfl, fun _ => by simp; omega, ?_, ?_, ?_⟩
        · intro _
          exact ⟨rfl, by simp; omega⟩
        · intro hc; simp at hc
        · intro _ hc; simp at hc
      · rename_i hend
        have hrec := ih { st with sentCount := st.sentCount + 1 }
        refine ⟨hrec.1, le_trans (by simp) hrec.2.1, hrec.2.2.1, ?_, ?_, ?_, ?_⟩
        · intro _
          exact hrec.2.2.2.1 (by simp; omega)
        · intro hfin
          exact hrec.2.2.2.2.1 hfin
        · intro hfin
          exact hrec.2.2.2.2.2.1 hfin
        · intro hfu hfin _
          have := hrec.2.2.2.2.2.2 (by simp; omega) hfin (by simp; omega)
          exact this
    · rename_i hg
      refine ⟨rfl, le_refl _, rfl, fun h => h, by simp, fun _ => rfl, ?_⟩
      intro _ _ hlt
      constructor
      · exact hlt
      · intro hstale
        exact hg ⟨hlt, hstale⟩

lemma skipPast_spec (now : Int) (st : ExecState) :
    (skipPast now st).1.schedule = st.schedule ∧
    st.sentCount ≤ (skipPast now st).1.sentCount ∧
    (skipPast now st).1.totalUsdRaised = st.totalUsdRaised ∧
    (st.sentCount ≤ st.schedule.length →
      (skipPast now st).1.sentCount ≤ st.schedule.length) ∧
    ((skipPast now st).2.2 = true →
      (skipPast now st).1.completed = true ∧
      (skipPast now st).1.sentCount = st.schedule.length) ∧
    ((skipPast now st).2.2 = false →
      (skipPast now st).1.completed = st.completed) ∧
    ((skipPast now st).2.2 = false →
      st.sentCount < st.schedule.length →
      (skipPast now st).1.sentCount < st.schedule.length ∧
      ¬(itemAt (st.schedule.getD (skipPast now st).1.sentCount (RawItem.iso 0))
          - now < -MAX_ALLOWED_DELAY_MS)) := by
  have h := skipPastAux_spec now (st.schedule.length - st.sentCount) st
  exact ⟨h.1, h.2.1, h.2.2.1, h.2.2.2.1, h.2.2.2.2.1, h.2.2.2.2.2.1,
    fun hfin hlt => h.2.2.2.2.2.2 (le_refl _) hfin hlt⟩

lemma sendNextIfDue_spec (amt : ℚ) (now : Int) (o : SendOutcome) (st : ExecState) :
    (sendNextIfDue amt now o st).state.schedule = st.schedule ∧
    st.sentCount ≤ (sendNextIfDue amt now o st).state.sentCount ∧
    (st.sentCount ≤ st.schedule.length →
      (sendNextIfDue amt now o st).state.sentCount ≤ st.schedule.length) ∧
    (st.sentCount ≤ st.schedule.length →
      (st.completed = true → st.sentCount = st.schedule.length) →
      ((sendNextIfDue amt now o st).state.completed = true →
        (sendNextIfDue amt now o st).state.sentCount = st.schedule.length)) ∧
    (∀ j it, (sendNextIfDue amt now o st).dispatched = some (j, it) →
      st.sentCount ≤ j) ∧
    (sendNextIfDue amt now o st).state.totalUsdRaised
      = st.totalUsdRaised + dispatchDelta amt o (sendNextIfDue amt now o st) := by
  obtain ⟨hsch, hmono, htot, hle, hfin, hnfin, hfresh⟩ := skipPast_spec now st
  have hlensk : (skipPast now st).1.schedule.length = st.schedule.length := by
    rw [hsch]
  simp only [sendNextIfDue]
  split
  · rename_i hc
    exact ⟨rfl, le_refl _, fun h => h, fun _ h2 h3 => h2 h3, by simp,
      by simp [dispatchDelta]⟩
  · split
    · rename_i hc hge
      refine ⟨rfl, le_refl _, fun h => h, ?_, by simp, by simp [dispatchDelta]⟩
      intro h1 _ _
      change st.sentCount = st.schedule.length
      omega
    · rename_i hc hge
      have hlt : st.sentCount < st.schedule.length := by omega
      split
      · rename_i hfin2
        have h2 := hfin hfin2
        refine ⟨hsch, hmono, ?_, ?_, by simp, by simp [dispatchDelta, htot]⟩
        · intro _
          change (skipPast now st).1.sentCount ≤ st.schedule.length
          omega
        · intro _ _ _
          change (skipPast now st).1.sentCount = st.schedule.length
          omega
      · rename_i hfin2x
        have hfin2 : (skipPast now st).2.2 = false := by
          simpa using hfin2x
        have hcur := hfresh hfin2 hlt
        have hcompl := hnfin hfin2
        split
        · rename_i hdue
          split
          · rename_i hkind
            refine ⟨by simpa using hsch, by simp; omega, ?_, ?_, ?_, ?_⟩
            · intro _
              simp
              omega
            · intro _ _ hcp
              simp at hcp
              rw [hcompl] at hcp
              exact absurd hcp (by simpa using hc)
            · intro j it hj
              simp at hj
              omega
            · simp only [dispatchDelta]
              simp only [List.getD_eq_getElem?_getD] at hkind
              simp [htot, hkind]
          · rename_i hkind
            refine ⟨hsch, hmono, fun _ => by simp; omega, ?_, ?_, ?_⟩
            · intro _ _ hcp
              simp at hcp
              rw [hcompl] at hcp
              exact absurd hcp (by simpa using hc)
            · intro j it hj
              simp at hj
              omega
            · simp only [dispatchDelta]
              simp only [List.getD_eq_getElem?_getD] at hkind
              simp [htot, hkind]
          · rename_i hkind
            refine ⟨by simpa using hsch, by simp; omega, ?_, ?_, ?_, ?_⟩
            · intro _
              simp
              omega
            · intro _ _ hcp
              simp at hcp
              rw [hcompl] at hcp
              exact absurd hcp (by simpa using hc)
            · intro j it hj
              simp at hj
              omega
            · simp only [dispatchDelta]
              simp only [List.getD_eq_getElem?_getD] at hkind
              simp [htot, hkind]
          · rename_i hkind
            refine ⟨hsch, hmono, fun _ => by simp; omega, ?_, ?_, ?_⟩
            · intro _ _ hcp
              simp at hcp
              rw [hcompl] at hcp
              exact absurd hcp (by simpa using hc)
            · intro j it hj
              simp at hj
              omega
            · simp only [dispatchDelta]
              simp only [List.getD_eq_getElem?_getD] at hkind
              simp [htot, hkind]
          · rename_i hkind
            refine ⟨by simpa using hsch, by simp; omega, ?_, ?_, ?_, ?_⟩
            · intro _
              simp
              omega
            · intro _ _ hcp
              simp at hcp
              rw [hcompl] at hcp
              exact absurd hcp (by simpa using hc)
            · intro j it hj
              simp at hj
              omega
            · simp only [dispatchDelta]
              simp only [List.getD_eq_getElem?_getD] at hkind
              simp [htot, hkind]
          · rename_i hkind
            refine ⟨hsch, hmono, fun _ => by simp; omega, ?_, ?_, ?_⟩
            · intro _ _ hcp
              simp at hcp
              rw [hcompl] at hcp
              exact absurd hcp (by simpa using hc)
            · intro j it hj
              simp at hj
              omega
            · simp only [dispatchDelta]
              simp only [List.getD_eq_getElem?_getD] at hkind
              simp [htot, hkind]
          · rename_i hkind
            refine ⟨by simpa using hsch, by simp; omega, ?_, ?_, ?_, ?_⟩
            · intro _
              simp
              omega
            · intro _ _ hcp
              simp at hcp
              rw [hcompl] at hcp
              exact absurd hcp (by simpa using hc)
            · intro j it hj
              simp at hj
            · simp only [dispatchDelta]
              simp only [List.getD_eq_getElem?_getD] at hkind
              simp [htot, hkind]
        · rename_i hwait
          refine ⟨hsch, hmono, fun _ => by simp; omega, ?_, by simp,
            by simp [dispatchDelta, htot]⟩
          intro _ _ hcp
          simp at hcp
          rw [hcompl] at hcp
          exact absurd hcp (by simpa using hc)

lemma sendNextIfDue_after_skip (amt : ℚ) (now : Int) (o : SendOutcome)
    (st : ExecState) (hc : st.completed = false)
    (hlt : st.sentCount < st.schedule.length) :
    (skipPast now st).1.sentCount ≤ (sendNextIfDue amt now o st).state.sentCount ∧
    (∀ x ∈ (skipPast now st).2.1, x ∈ (sendNextIfDue amt now o st).saves) ∧
    (∀ j it, (sendNextIfDue amt now o st).dispatched = some (j, it) →
      j = (skipPast now st).1.sentCount) := by
  simp only [sendNextIfDue]
  split
  · rename_i hcc
    rw [hc] at hcc
    simp at hcc
  · split
    · rename_i hcc hge
      omega
    · rename_i hcc hge
      split
      · exact ⟨le_refl _, fun x hx => hx, by simp⟩
      · split
        · split
          · exact ⟨by simp, fun x hx => by simp [hx], by simp⟩
          · exact ⟨le_refl _, fun x hx => hx, by simp⟩
          · exact ⟨by simp, fun x hx => by simp [hx], by simp⟩
          · exact ⟨le_refl _, fun x hx => hx, by simp⟩
          · exact ⟨by simp, fun x hx => by simp [hx], by simp⟩
          · exact ⟨le_refl _, fun x hx => hx, by simp⟩
          · exact ⟨by simp, fun x hx => by simp [hx], by simp⟩
        · exact ⟨le_refl _, fun x hx => hx, by simp⟩

/-- C5: on one invocation of the dispatch check, a pending entry more than
30 seconds behind corrected now is skipped: the cursor advances past it
without a send being attempted for it, and the state with the advanced
cursor is persisted; a pending entry at most 30 seconds behind (or due
now) has a send attempted for it at exactly the pending index. -/
theorem sendNextIfDue_staleness_policy
    (amt : ℚ) (now : Int) (o : SendOutcome) (st : ExecState) (k : Nat)
    (hc : st.completed = false) (hk : st.sentCount = k)
    (hlt : k < st.schedule.length) :
    (itemAt (st.schedule.getD k (RawItem.iso 0)) < now - 30000 →
      k + 1 ≤ (sendNextIfDue amt now o st).state.sentCount ∧
      ({ st with sentCount := k + 1 } : ExecState) ∈ (sendNextIfDue amt now o st).saves ∧
      (∀ j it, (sendNextIfDue amt now o st).dispatched = some (j, it) → k < j)) ∧
    (now - 30000 ≤ itemAt (st.schedule.getD k (RawItem.iso 0)) →
     itemAt (st.schedule.getD k (RawItem.iso 0)) ≤ now →
      (sendNextIfDue amt now o st).dispatched
        = if itemKind (st.schedule.getD k (RawItem.iso 0)) = EventKind.other then none
          else some (k, st.schedule.getD k (RawItem.iso 0))) := by
  have hlt2 : st.sentCount < st.schedule.length := by omega
  constructor
  · intro hstale
    have hguard : st.sentCount < st.schedule.length ∧
        itemAt (st.schedule.getD st.sentCount (RawItem.iso 0)) - now
          < -MAX_ALLOWED_DELAY_MS := by
      refine ⟨hlt2, ?_⟩
      rw [hk]
      simp only [MAX_ALLOWED_DELAY_MS]
      omega
    have hskeq := skipPast_eq now st
    rw [if_pos hguard] at hskeq
    have hafter := sendNextIfDue_after_skip amt now o st hc hlt2
    have hsk1 : k + 1 ≤ (skipPast now st).1.sentCount ∧
        ({ st with sentCount := k + 1 } : ExecState) ∈ (skipPast now st).2.1 := by
      rw [hskeq]
      split
      · constructor
        · simp [hk]
        · simp [hk]
      · have hrec := skipPast_spec now { st with sentCount := st.sentCount + 1 }
        constructor
        · simp only
          have := hrec.2.1
          simp at this
          omega
        · simp [hk]
    refine ⟨le_trans hsk1.1 hafter.1, hafter.2.1 _ hsk1.2, ?_⟩
    intro j it hj
    have := hafter.2.2 j it hj
    omega
  · intro hfresh hdue
    have hnguard : ¬(st.sentCount < st.schedule.length ∧
        itemAt (st.schedule.getD st.sentCount (RawItem.iso 0)) - now
          < -MAX_ALLOWED_DELAY_MS) := by
      rw [hk]
      simp only [MAX_ALLOWED_DELAY_MS]
      omega
    have hskeq := skipPast_of_fresh now st hnguard
    have hd2 : itemAt (st.schedule.getD st.sentCount (RawItem.iso 0)) - now ≤ 0 := by
      rw [hk]; omega
    simp only [sendNextIfDue]
    split
    · rename_i hcc
      rw [hc] at hcc
      simp at hcc
    · split
      · rename_i hcc hge
        omega
      · rename_i hcc hge
        have hd4 : itemAt (st.schedule[k]?.getD (RawItem.iso 0)) ≤ now := by
          have h5 := hd2
          rw [hk] at h5
          simp only [List.getD_eq_getElem?_getD] at h5
          omega
        cases hkind2 : itemKind (st.schedule.getD k (RawItem.iso 0)) <;>
          cases o <;>
          simp only [List.getD_eq_getElem?_getD] at hkind2 <;>
          simp [hskeq, hd4, hk, hkind2]

/-- Witness for `sendNextIfDue_staleness_policy`: an entry 40 seconds
stale is skipped (cursor advances, advanced state persisted, no send for
it); an entry 10 seconds stale is dispatched at its index. -/
theorem sendNextIfDue_staleness_policy_witness :
    (1 ≤ (sendNextIfDue 100 0 SendOutcome.success
        ⟨[RawItem.ev (-40000) EventKind.buy], 0, 0, false⟩).state.sentCount ∧
      ({ schedule := [RawItem.ev (-40000) EventKind.buy], sentCount := 1,
         totalUsdRaised := 0, completed := false } : ExecState)
        ∈ (sendNextIfDue 100 0 SendOutcome.success
            ⟨[RawItem.ev (-40000) EventKind.buy], 0, 0, false⟩).saves ∧
      (∀ j it, (sendNextIfDue 100 0 SendOutcome.success
          ⟨[RawItem.ev (-40000) EventKind.buy], 0, 0, false⟩).dispatched
            = some (j, it) → 0 < j)) ∧
    (sendNextIfDue 100 0 SendOutcome.success
        ⟨[RawItem.ev (-10000) EventKind.buy], 0, 0, false⟩).dispatched
      = if itemKind (([RawItem.ev (-10000) EventKind.buy] : List RawItem).getD 0
            (RawItem.iso 0)) = EventKind.other then none
        else some (0, ([RawItem.ev (-10000) EventKind.buy] : List RawItem).getD 0
            (RawItem.iso 0)) := by
  constructor
  · exact (sendNextIfDue_staleness_policy 100 0 SendOutcome.success
      ⟨[RawItem.ev (-40000) EventKind.buy], 0, 0, false⟩ 0 rfl rfl
      (by decide)).1 (by decide)
  · exact (sendNextIfDue_staleness_policy 100 0 SendOutcome.success
      ⟨[RawItem.ev (-10000) EventKind.buy], 0, 0, false⟩ 0 rfl rfl
      (by decide)).2 (by decide) (by decide)

/-- C6: when the awaited Telegram send throws during a dispatch attempt,
the catch block leaves the execution state untouched (cursor not advanced,
running total not incremented), persists nothing, and rearms the loop
after 1 second, retrying the same entry. -/
theorem sendNextIfDue_failure_keeps_state
    (amt : ℚ) (now : Int) (st : ExecState) (k : Nat)
    (hc : st.completed = false) (hk : st.sentCount = k)
    (hlt : k < st.schedule.length)
    (hfresh : now - 30000 ≤ itemAt (st.schedule.getD k (RawItem.iso 0)))
    (hdue : itemAt (st.schedule.getD k (RawItem.iso 0)) ≤ now)
    (hkind : itemKind (st.schedule.getD k (RawItem.iso 0)) ≠ EventKind.other) :
    sendNextIfDue amt now SendOutcome.failure st
      = ⟨st, [], some (k, st.schedule.getD k (RawItem.iso 0)), some 1000⟩ := by
  have hlt2 : st.sentCount < st.schedule.length := by omega
  have hnguard : ¬(st.sentCount < st.schedule.length ∧
      itemAt (st.schedule.getD st.sentCount (RawItem.iso 0)) - now
        < -MAX_ALLOWED_DELAY_MS) := by
    rw [hk]
    simp only [MAX_ALLOWED_DELAY_MS]
    omega
  have hskeq := skipPast_of_fresh now st hnguard
  have hd4 : itemAt (st.schedule[k]?.getD (RawItem.iso 0)) ≤ now := by
    have h5 := hdue
    simp only [List.getD_eq_getElem?_getD] at h5
    omega
  simp only [sendNextIfDue]
  split
  · rename_i hcc
    rw [hc] at hcc
    simp at hcc
  · split
    · rename_i hcc hge
      omega
    · rename_i hcc hge
      cases hkind2 : itemKind (st.schedule.getD k (RawItem.iso 0)) <;>
        simp only [List.getD_eq_getElem?_getD] at hkind2 <;>
        simp [hskeq, hd4, hk, hkind2, List.getD_eq_getElem?_getD]
      exact absurd (by simpa [List.getD_eq_getElem?_getD] using hkind2) hkind

/-- Witness for `sendNextIfDue_failure_keeps_state`: a due buy whose send
fails leaves the state record exactly as it was, with a 1-second retry. -/
theorem sendNextIfDue_failure_keeps_state_witness :
    sendNextIfDue 100 0 SendOutcome.failure
        ⟨[RawItem.ev (-10000) EventKind.buy], 0, 7, false⟩
      = ⟨⟨[RawItem.ev (-10000) EventKind.buy], 0, 7, false⟩, [],
         some (0, ([RawItem.ev (-10000) EventKind.buy] : List RawItem).getD 0
           (RawItem.iso 0)), some 1000⟩ :=
  sendNextIfDue_failure_keeps_state 100 0
    ⟨[RawItem.ev (-10000) EventKind.buy], 0, 7, false⟩ 0 rfl rfl
    (by decide) (by decide) (by decide) (by decide)

lemma runTicks_dispatch_ge (amt : ℚ) : ∀ (ticks : List (Int × SendOutcome))
    (st : ExecState),
    (∀ p ∈ (runTicks amt ticks st).2, st.sentCount ≤ p.1) ∧
    st.sentCount ≤ (runTicks amt ticks st).1.sentCount := by
  intro ticks
  induction ticks with
  | nil =>
    intro st
    simp [runTicks]
  | cons t rest ih =>
    intro st
    obtain ⟨now, o⟩ := t
    have hspec := sendNextIfDue_spec amt now o st
    have hih := ih (sendNextIfDue amt now o st).state
    simp only [runTicks]
    constructor
    · intro p hp
      rcases List.mem_append.mp hp with hp1 | hp2
      · have hsome : (sendNextIfDue amt now o st).dispatched = some p := by
          rcases hd : (sendNextIfDue amt now o st).dispatched with _ | q
          · simp [hd] at hp1
          · simp [hd] at hp1
            rw [hp1]
        exact hspec.2.2.2.2.1 p.1 p.2 (by rw [← hsome])
      · exact le_trans hspec.2.1 (hih.1 p hp2)
    · exact le_trans hspec.2.1 hih.2

lemma runTicks_invariant (amt : ℚ) : ∀ (ticks : List (Int × SendOutcome))
    (st : ExecState),
    st.sentCount ≤ st.schedule.length →
    (st.completed = true → st.sentCount = st.schedule.length) →
    (runTicks amt ticks st).1.sentCount ≤ (runTicks amt ticks st).1.schedule.length ∧
    ((runTicks amt ticks st).1.completed = true →
      (runTicks amt ticks st).1.sentCount = (runTicks amt ticks st).1.schedule.length) := by
  intro ticks
  induction ticks with
  | nil =>
    intro st h1 h2
    simpa [runTicks] using ⟨h1, h2⟩
  | cons t rest ih =>
    intro st h1 h2
    obtain ⟨now, o⟩ := t
    have hspec := sendNextIfDue_spec amt now o st
    have hlen : (sendNextIfDue amt now o st).state.schedule.length
        = st.schedule.length := by rw [hspec.1]
    simp only [runTicks]
    exact ih (sendNextIfDue amt now o st).state
      (by rw [hlen]; exact hspec.2.2.1 h1)
      (by rw [hlen]; exact hspec.2.2.2.1 h1 h2)

/-- C7: when the persisted state's stored signature matches the current
configuration signature, startup keeps the persisted state unchanged, so
the loop resumes at the persisted cursor k, and across any sequence of
subsequent ticks every attempted dispatch is at an index at least k —
entries before k are never re-dispatched. -/
theorem resume_never_redispatches
    (stored : StoredState) (sig : ConfigSignature) (fresh : ExecState)
    (amt : ℚ) (ticks : List (Int × SendOutcome))
    (hsig : stored.configSignature = sig) :
    resolveState (some stored) sig fresh = stored.st ∧
    ∀ p ∈ (runTicks amt ticks stored.st).2, stored.st.sentCount ≤ p.1 := by
  constructor
  · simp [resolveState, hsig]
  · exact fun p hp => (runTicks_dispatch_ge amt ticks stored.st).1 p hp

/-- Witness for `resume_never_redispatches`: a stored state with cursor 1
and matching signature resumes unchanged and dispatches only indices ≥ 1. -/
theorem resume_never_redispatches_witness :
    resolveState
        (some ⟨⟨0, 0, 0, 0, 0, 0, 0, false, none⟩,
          ⟨[RawItem.ev 0 EventKind.buy, RawItem.ev 0 EventKind.buy], 1, 0, false⟩⟩)
        ⟨0, 0, 0, 0, 0, 0, 0, false, none⟩
        ⟨[], 0, 0, false⟩
      = ⟨[RawItem.ev 0 EventKind.buy, RawItem.ev 0 EventKind.buy], 1, 0, false⟩ ∧
    ∀ p ∈ (runTicks 100 [(0, SendOutcome.success)]
        (⟨[RawItem.ev 0 EventKind.buy, RawItem.ev 0 EventKind.buy], 1, 0,
          false⟩ : ExecState)).2, 1 ≤ p.1 :=
  resume_never_redispatches
    ⟨⟨0, 0, 0, 0, 0, 0, 0, false, none⟩,
      ⟨[RawItem.ev 0 EventKind.buy, RawItem.ev 0 EventKind.buy], 1, 0, false⟩⟩
    ⟨0, 0, 0, 0, 0, 0, 0, false, none⟩ ⟨[], 0, 0, false⟩ 100
    [(0, SendOutcome.success)] rfl

/-- C8 fails on the code: dispatching the final entry increments the cursor
to the plan length and persists, but the completion flag is only set on
the next tick (src/index.js:744-749), so a reachable state has
cursor = length with the flag still false. -/
theorem execState_completion_flag_counterexample :
    ((runTicks 100 [(0, SendOutcome.success)]
        (initialState ⟨0, 0, 0, 0, 0, 0, 0, false, none⟩
          [RawItem.ev 0 EventKind.buy] 0).st).1.sentCount
      = (runTicks 100 [(0, SendOutcome.success)]
          (initialState ⟨0, 0, 0, 0, 0, 0, 0, false, none⟩
            [RawItem.ev 0 EventKind.buy] 0).st).1.schedule.length) ∧
    (runTicks 100 [(0, SendOutcome.success)]
        (initialState ⟨0, 0, 0, 0, 0, 0, 0, false, none⟩
          [RawItem.ev 0 EventKind.buy] 0).st).1.completed = false := by
  simp [runTicks, initialState, sendNextIfDue, skipPast, skipPastAux,
    MAX_ALLOWED_DELAY_MS, itemAt, itemKind]

/-- C8 amended: along every tick sequence from a freshly generated state,
cursor ≤ plan length and the completion flag being set implies
cursor = plan length (the converse holds only on the tick after the final
dispatch); and on every single tick the running total changes by exactly
`dispatchDelta` — one per-event amount on a successful buy dispatch, zero
otherwise. -/
theorem execState_invariant_and_total_delta
    (amt : ℚ) (sig : ConfigSignature) (schedule : List RawItem) (raised : ℚ)
    (ticks : List (Int × SendOutcome)) :
    ((runTicks amt ticks (initialState sig schedule raised).st).1.sentCount
       ≤ (runTicks amt ticks (initialState sig schedule raised).st).1.schedule.length ∧
     ((runTicks amt ticks (initialState sig schedule raised).st).1.completed = true →
       (runTicks amt ticks (initialState sig schedule raised).st).1.sentCount
         = (runTicks amt ticks (initialState sig schedule raised).st).1.schedule.length)) ∧
    ∀ (s : ExecState) (now : Int) (o : SendOutcome),
      (sendNextIfDue amt now o s).state.totalUsdRaised
        = s.totalUsdRaised + dispatchDelta amt o (sendNextIfDue amt now o s) := by
  constructor
  · exact runTicks_invariant amt ticks _ (by simp [initialState])
      (by simp [initialState])
  · intro s now o
    exact (sendNextIfDue_spec amt now o s).2.2.2.2.2

/-- Witness for `execState_invariant_and_total_delta` at a concrete fresh
state and a concrete successful buy tick. -/
theorem execState_invariant_and_total_delta_witness :
    (runTicks 100 [(0, SendOutcome.success)]
        (initialState ⟨0, 0, 0, 0, 0, 0, 0, false, none⟩
          [RawItem.ev 0 EventKind.buy] 0).st).1.sentCount
      ≤ (runTicks 100 [(0, SendOutcome.success)]
          (initialState ⟨0, 0, 0, 0, 0, 0, 0, false, none⟩
            [RawItem.ev 0 EventKind.buy] 0).st).1.schedule.length ∧
    (sendNextIfDue 100 0 SendOutcome.success
        (⟨[RawItem.ev 0 EventKind.buy], 0, 0, false⟩ : ExecState)).state.totalUsdRaised
      = (⟨[RawItem.ev 0 EventKind.buy], 0, 0, false⟩ : ExecState).totalUsdRaised
        + dispatchDelta 100 SendOutcome.success
          (sendNextIfDue 100 0 SendOutcome.success
            ⟨[RawItem.ev 0 EventKind.buy], 0, 0, false⟩) :=
  ⟨(execState_invariant_and_total_delta 100 ⟨0, 0, 0, 0, 0, 0, 0, false, none⟩
      [RawItem.ev 0 EventKind.buy] 0 [(0, SendOutcome.success)]).1.1,
   (execState_invariant_and_total_delta 100 ⟨0, 0, 0, 0, 0, 0, 0, false, none⟩
      [RawItem.ev 0 EventKind.buy] 0 [(0, SendOutcome.success)]).2
     ⟨[RawItem.ev 0 EventKind.buy], 0, 0, false⟩ 0 SendOutcome.success⟩

lemma specialPhaseSig_map_injective (o1 o2 : Option SpecialPhaseConfig)
    (h : o1.map (fun sp =>
        ({ enabled := sp.enabled
           countdownStartUtc := sp.countdownStartUtc
           presaleStartUtc := sp.presaleStartUtc
           initialBurstMinutes := sp.initialBurstMinutes
           initialBurstCount := sp.initialBurstCount } : SpecialPhaseSig))
      = o2.map (fun sp =>
        ({ enabled := sp.enabled
           countdownStartUtc := sp.countdownStartUtc
           presaleStartUtc := sp.presaleStartUtc
           initialBurstMinutes := sp.initialBurstMinutes
           initialBurstCount := sp.initialBurstCount } : SpecialPhaseSig))) :
    o1 = o2 := by
  cases o1 with
  | none =>
    cases o2 with
    | none => rfl
    | some b => simp at h
  | some a =>
    cases o2 with
    | none => simp at h
    | some b =>
      cases a
      cases b
      simp_all

/-- C9: two configurations that differ in any scheduling-relevant field
serialized into the signature (start, end, target total, min/max per hour,
per-event amount, token rate, hard-stop flag, or the special-phase
sub-config) produce different signatures, so a plan persisted under the
first is regenerated under the second; two configurations agreeing on all
nine of those fields produce identical signatures even if they differ
elsewhere (bot token, chat id, startRaisedUsd), so the persisted plan is
kept. -/
theorem configSignature_invalidation
    (c1 c2 : AppConfig) (stored fresh : ExecState) :
    ((c1.startTimeUtc ≠ c2.startTimeUtc ∨ c1.endTimeUtc ≠ c2.endTimeUtc ∨
      c1.targetTotalUsd ≠ c2.targetTotalUsd ∨ c1.minPerHour ≠ c2.minPerHour ∨
      c1.maxPerHour ≠ c2.maxPerHour ∨
      c1.amountPerMessageUsd ≠ c2.amountPerMessageUsd ∨
      c1.tokensPerHundred ≠ c2.tokensPerHundred ∨
      c1.enforceHardStopAtEnd ≠ c2.enforceHardStopAtEnd ∨
      c1.specialPhase ≠ c2.specialPhase) →
      getConfigSignature c1 ≠ getConfigSignature c2 ∧
      resolveState (some ⟨getConfigSignature c1, stored⟩)
        (getConfigSignature c2) fresh = fresh) ∧
    (c1.startTimeUtc = c2.startTimeUtc → c1.endTimeUtc = c2.endTimeUtc →
     c1.targetTotalUsd = c2.targetTotalUsd → c1.minPerHour = c2.minPerHour →
     c1.maxPerHour = c2.maxPerHour →
     c1.amountPerMessageUsd = c2.amountPerMessageUsd →
     c1.tokensPerHundred = c2.tokensPerHundred →
     c1.enforceHardStopAtEnd = c2.enforceHardStopAtEnd →
     c1.specialPhase = c2.specialPhase →
      getConfigSignature c1 = getConfigSignature c2 ∧
      resolveState (some ⟨getConfigSignature c1, stored⟩)
        (getConfigSignature c2) fresh = stored) := by
  constructor
  · intro hdiff
    have hsig : getConfigSignature c1 ≠ getConfigSignature c2 := by
      intro heq
      have h1 := congrArg ConfigSignature.startTimeUtc heq
      have h2 := congrArg ConfigSignature.endTimeUtc heq
      have h3 := congrArg ConfigSignature.targetTotalUsd heq
      have h4 := congrArg ConfigSignature.minPerHour heq
      have h5 := congrArg ConfigSignature.maxPerHour heq
      have h6 := congrArg ConfigSignature.amountPerMessageUsd heq
      have h7 := congrArg ConfigSignature.tokensPerHundred heq
      have h8 := congrArg ConfigSignature.enforceHardStopAtEnd heq
      have h9 := congrArg ConfigSignature.specialPhase heq
      simp only [getConfigSignature] at h1 h2 h3 h4 h5 h6 h7 h8 h9
      have h9b : c1.specialPhase = c2.specialPhase :=
        specialPhaseSig_map_injective c1.specialPhase c2.specialPhase h9
      rcases hdiff with h | h | h | h | h | h | h | h | h
      · exact h h1
      · exact h h2
      · exact h h3
      · exact h h4
      · exact h h5
      · exact h h6
      · exact h h7
      · exact h h8
      · exact h h9b
    exact ⟨hsig, by simp [resolveState, hsig]⟩
  · intro h1 h2 h3 h4 h5 h6 h7 h8 h9
    have hsig : getConfigSignature c1 = getConfigSignature c2 := by
      simp [getConfigSignature, h1, h2, h3, h4, h5, h6, h7, h8, h9]
    exact ⟨hsig, by simp [resolveState, hsig]⟩

/-- Witness for `configSignature_invalidation`: changing only the target
invalidates, changing only the end time also invalidates, while changing
only the bot token and starting raised amount keeps the plan. -/
theorem configSignature_invalidation_witness :
    (getConfigSignature { sampleConfig with targetTotalUsd := 100 }
        ≠ getConfigSignature { sampleConfig with targetTotalUsd := 200 } ∧
      resolveState
        (some ⟨getConfigSignature { sampleConfig with targetTotalUsd := 100 },
          ⟨[], 0, 0, false⟩⟩)
        (getConfigSignature { sampleConfig with targetTotalUsd := 200 })
        ⟨[RawItem.iso 5], 0, 0, false⟩
      = ⟨[RawItem.iso 5], 0, 0, false⟩) ∧
    (getConfigSignature { sampleConfig with endTimeUtc := 7200000 }
        ≠ getConfigSignature sampleConfig ∧
      resolveState
        (some ⟨getConfigSignature { sampleConfig with endTimeUtc := 7200000 },
          ⟨[], 0, 0, false⟩⟩)
        (getConfigSignature sampleConfig)
        ⟨[RawItem.iso 5], 0, 0, false⟩
      = ⟨[RawItem.iso 5], 0, 0, false⟩) ∧
    (getConfigSignature sampleConfig
        = getConfigSignature { sampleConfig with botToken := 2, startRaisedUsd := 50 } ∧
      resolveState
        (some ⟨getConfigSignature sampleConfig, ⟨[], 0, 0, false⟩⟩)
        (getConfigSignature { sampleConfig with botToken := 2, startRaisedUsd := 50 })
        ⟨[RawItem.iso 5], 0, 0, false⟩
      = ⟨[], 0, 0, false⟩) :=
  ⟨(configSignature_invalidation { sampleConfig with targetTotalUsd := 100 }
      { sampleConfig with targetTotalUsd := 200 } ⟨[], 0, 0, false⟩
      ⟨[RawItem.iso 5], 0, 0, false⟩).1
      (Or.inr (Or.inr (Or.inl (by norm_num [sampleConfig])))),
   (configSignature_invalidation { sampleConfig with endTimeUtc := 7200000 }
      sampleConfig ⟨[], 0, 0, false⟩
      ⟨[RawItem.iso 5], 0, 0, false⟩).1
      (Or.inr (Or.inl (by norm_num [sampleConfig]))),
   (configSignature_invalidation sampleConfig
      { sampleConfig with botToken := 2, startRaisedUsd := 50 } ⟨[], 0, 0, false⟩
      ⟨[RawItem.iso 5], 0, 0, false⟩).2 rfl rfl rfl rfl rfl rfl rfl rfl rfl⟩

/-- C10: with the hard-stop flag set, the startup trim keeps exactly the
schedule items timestamped at or before the configured end (dropping every
item strictly after it, as a sublist of the original order) and leaves
the cursor, running total and completion flag unchanged. -/
theorem hardStop_trims_schedule (endTs : Int) (st : ExecState) :
    (∀ item ∈ (applyHardStop true endTs st).schedule, itemAt item ≤ endTs) ∧
    (∀ item ∈ st.schedule, itemAt item ≤ endTs →
      item ∈ (applyHardStop true endTs st).schedule) ∧
    (applyHardStop true endTs st).schedule.Sublist st.schedule ∧
    (applyHardStop true endTs st).sentCount = st.sentCount ∧
    (applyHardStop true endTs st).totalUsdRaised = st.totalUsdRaised ∧
    (applyHardStop true endTs st).completed = st.completed := by
  simp only [applyHardStop, hardStopTrim, if_pos trivial]
  refine ⟨?_, ?_, List.filter_sublist _, trivial, trivial, trivial⟩
  · intro item hmem
    have := List.of_mem_filter hmem
    simpa using this
  · intro item hmem hle
    apply List.mem_filter_of_mem hmem
    simpa using hle

/-- Witness for `hardStop_trims_schedule` at a concrete two-item schedule
with one item beyond the end. -/
theorem hardStop_trims_schedule_witness :
    (∀ item ∈ (applyHardStop true 1000
        (⟨[RawItem.ev 0 EventKind.buy, RawItem.ev 2000 EventKind.buy], 1, 3,
          false⟩ : ExecState)).schedule, itemAt item ≤ 1000) ∧
    (applyHardStop true 1000
        (⟨[RawItem.ev 0 EventKind.buy, RawItem.ev 2000 EventKind.buy], 1, 3,
          false⟩ : ExecState)).sentCount = 1 :=
  ⟨(hardStop_trims_schedule 1000
      ⟨[RawItem.ev 0 EventKind.buy, RawItem.ev 2000 EventKind.buy], 1, 3, false⟩).1,
   (hardStop_trims_schedule 1000
      ⟨[RawItem.ev 0 EventKind.buy, RawItem.ev 2000 EventKind.buy], 1, 3, false⟩).2.2.2.1⟩

/-- C4 fails on the code: with no special phase and one remaining ordinary
event, `generateFullSchedule` returns the end of the expanded hour span
(src/index.js:458, start + hours·3600000 ms) as `effectiveEnd`, which is
not the timestamp of the last entry (0 here) even though the plan is
nonempty. -/
theorem generateFullSchedule_effectiveEnd_counterexample :
    (generateFullSchedule sampleOracle sampleConfig).1
        = [RawItem.ev 0 EventKind.buy] ∧
    (generateFullSchedule sampleOracle sampleConfig).2 = 3600000 ∧
    itemAt (RawItem.ev 0 EventKind.buy) ≠ 3600000 ∧
    sampleConfig.startTimeUtc ≠ 3600000 := by
  have h : generateFullSchedule sampleOracle sampleConfig
      = ([RawItem.ev 0 EventKind.buy], 3600000) := by
    norm_num [generateFullSchedule, specialPhaseBase, generateSchedule, sampleConfig,
      sampleOracle, totalMessagesNeeded, expandedHours, ceilDivInt,
      generatePerHourWeights, jsRoundQ, perHourAllocation, firstReconcile,
      softFloor, finalReconcile, raisePass, repayPass, addPass, subPass,
      sampleUniqueSecondsWithinHour, sortTimes, enforceUniqueIntervals, sortByAt,
      List.insertionSort]
  refine ⟨?_, ?_, by decide, by decide⟩
  · rw [h]
  · rw [h]

/-- C4 amended: when the special phase does not consume the whole event
budget, `effectiveEnd` is the end of the expanded hour span of the inner
`generateSchedule` call (normal start + hours·3600000 ms); only when the
special phase consumes everything is it the last entry's timestamp, or
the configured start for an empty plan. -/
theorem generateFullSchedule_effectiveEnd_amended
    (r : RandOracle) (config : AppConfig) :
    (0 < (specialPhaseBase r config).2.1 →
      (generateFullSchedule r config).2
        = (specialPhaseBase r config).2.2
          + ((expandedHours (specialPhaseBase r config).2.2 config.endTimeUtc
              config.maxPerHour
              (totalMessagesNeeded
                (((specialPhaseBase r config).2.1 : ℚ) * config.amountPerMessageUsd)
                config.amountPerMessageUsd)).toNat : Int) * 3600000) ∧
    ((specialPhaseBase r config).2.1 ≤ 0 →
      (generateFullSchedule r config).2
        = (match (sortByAt (specialPhaseBase r config).1).getLast? with
           | some e => itemAt e
           | none => config.startTimeUtc)) := by
  constructor
  · intro hpos
    simp only [generateFullSchedule, generateSchedule, if_pos hpos]
  · intro hnonpos
    simp only [generateFullSchedule]
    rw [if_neg (by omega)]

/-- Witness for `generateFullSchedule_effectiveEnd_amended`: the
no-special-phase configuration takes the hour-span-end branch; the
burst-consumes-everything configuration takes the last-entry branch. -/
theorem generateFullSchedule_effectiveEnd_amended_witness :
    ((generateFullSchedule sampleOracle sampleConfig).2
      = (specialPhaseBase sampleOracle sampleConfig).2.2
        + ((expandedHours (specialPhaseBase sampleOracle sampleConfig).2.2
            sampleConfig.endTimeUtc sampleConfig.maxPerHour
            (totalMessagesNeeded
              (((specialPhaseBase sampleOracle sampleConfig).2.1 : ℚ)
                * sampleConfig.amountPerMessageUsd)
              sampleConfig.amountPerMessageUsd)).toNat : Int) * 3600000) ∧
    ((generateFullSchedule sampleOracle specialSampleConfig).2
      = (match (sortByAt (specialPhaseBase sampleOracle specialSampleConfig).1).getLast? with
         | some e => itemAt e
         | none => specialSampleConfig.startTimeUtc)) :=
  ⟨(generateFullSchedule_effectiveEnd_amended sampleOracle sampleConfig).1
    (by norm_num [specialPhaseBase, sampleConfig, totalMessagesNeeded]),
   (generateFullSchedule_effectiveEnd_amended sampleOracle specialSampleConfig).2
    (by norm_num [specialPhaseBase, specialSampleConfig, sampleConfig,
      totalMessagesNeeded, sampleUniqueSeconds, sampleOracle])⟩

/-! ### Interval Uniqueness Enforcer lemmas (src/index.js:229-318) -/

lemma floorDivInt_mul_le (a b : Int) (hb : 0 < b) : floorDivInt a b * b ≤ a := by
  have h1 : b * (a.ediv b) + a.emod b = a := Int.ediv_add_emod _ _
  have h2 : 0 ≤ a.emod b := Int.emod_nonneg _ (ne_of_gt hb)
  simp only [floorDivInt]
  have h3 : a.ediv b * b = b * (a.ediv b) := by ring
  omega

lemma floorToHourTs_bounds (t : Int) :
    floorToHourTs t ≤ t ∧ t < floorToHourTs t + 3600000 := by
  have h1 : 3600000 * (t.ediv 3600000) + t.emod 3600000 = t := Int.ediv_add_emod _ _
  have h2 : 0 ≤ t.emod 3600000 := Int.emod_nonneg _ (by norm_num)
  have h3 : t.emod 3600000 < 3600000 := Int.emod_lt_of_pos _ (by norm_num)
  simp only [floorToHourTs]
  omega

lemma secondOfHour_bounds (t : Int) :
    floorToHourTs t + secondOfHour t * 1000 ≤ t ∧
    t < floorToHourTs t + (secondOfHour t + 1) * 1000 := by
  set x := t - floorToHourTs t with hx
  have h1 : 1000 * (x.ediv 1000) + x.emod 1000 = x := Int.ediv_add_emod _ _
  have h2 : 0 ≤ x.emod 1000 := Int.emod_nonneg _ (by norm_num)
  have h3 : x.emod 1000 < 1000 := Int.emod_lt_of_pos _ (by norm_num)
  simp only [secondOfHour, ← hx]
  omega

lemma mem_natSeq : ∀ (k s x : Nat), x ∈ natSeq s k → s ≤ x ∧ x < s + k := by
  intro k
  induction k with
  | zero => intro s x h; simp [natSeq] at h
  | succ n ih =>
    intro s x h
    simp only [natSeq, List.mem_cons] at h
    rcases h with h | h
    · omega
    · have := ih (s + 1) x h
      omega

lemma mem_intRange (a b x : Int) : x ∈ intRange a b → a ≤ x ∧ x ≤ b := by
  intro h
  rw [intRange] at h
  rcases List.mem_map.mp h with ⟨k, hk, hx⟩
  rw [List.mem_range] at hk
  rcases le_or_lt 0 (b + 1 - a) with hpos | hneg
  · have hcast : (((b + 1 - a).toNat : Int)) = b + 1 - a := Int.toNat_of_nonneg hpos
    have h4 : ((k : Int)) < (((b + 1 - a).toNat : Int)) := by exact_mod_cast hk
    rw [hcast] at h4
    omega
  · have h0 : (b + 1 - a).toNat = 0 := Int.toNat_of_nonpos (by omega)
    rw [h0] at hk
    omega

lemma exists_of_findSome? {α β : Type} (f : α → Option β) : ∀ (l : List α) (b : β),
    l.findSome? f = some b → ∃ a ∈ l, f a = some b := by
  intro l
  induction l with
  | nil => intro b h; simp [List.findSome?] at h
  | cons x xs ih =>
    intro b h
    rw [List.findSome?_cons] at h
    cases hf : f x with
    | some y =>
      rw [hf] at h
      have h2 : some y = some b := h
      exact ⟨x, by simp, hf.trans h2⟩
    | none =>
      rw [hf] at h
      have h2 : List.findSome? f xs = some b := h
      obtain ⟨a, ha, hfa⟩ := ih b h2
      exact ⟨a, by simp [ha], hfa⟩

lemma tryCandidate_ts (used usedSecs : List Int) (prev hourStart candSec : Int)
    (ts d : Int) (h : tryCandidate used usedSecs prev hourStart candSec = some (ts, d)) :
    ts = hourStart + candSec * 1000 := by
  simp only [tryCandidate] at h
  split at h
  · exact absurd h (by simp)
  · split at h
    · exact absurd h (by simp)
    · injection h with h2
      exact (congrArg Prod.fst h2).symm

lemma mem_radCandidates (baseSec lbSec ubSec : Int) (r : Nat) (c : Int)
    (h : c ∈ radCandidates baseSec lbSec ubSec r) :
    (c = baseSec + (r : Int) ∧ c ≤ ubSec) ∨
    (c = baseSec - (r : Int) ∧ lbSec ≤ c) := by
  simp only [radCandidates, List.mem_append] at h
  rcases h with h | h
  · split at h
    · simp at h
      left
      omega
    · simp at h
  · split at h
    · simp at h
      right
      omega
    · simp at h

lemma searchAlternative_bounds
    (used usedSecs : List Int) (prev hourStart baseSec lbSec ubSec : Int)
    (curr lowerBound upperBound : Int)
    (hbs1 : hourStart + baseSec * 1000 ≤ curr)
    (hbs2 : curr < hourStart + (baseSec + 1) * 1000)
    (hlb : lowerBound - hourStart ≤ lbSec * 1000)
    (hub : ubSec * 1000 ≤ upperBound - hourStart)
    (hlow : prev + 1000 ≤ lowerBound)
    (hprev : prev < curr) :
    ∀ ts d, searchAlternative used usedSecs prev hourStart baseSec lbSec ubSec
        = some (ts, d) →
      prev < ts ∧ (ts ≤ upperBound ∨ ts ≤ curr - 1000) := by
  intro ts d hsearch
  simp only [searchAlternative] at hsearch
  cases hrad : (natSeq 1 300).findSome?
      (fun r => (radCandidates baseSec lbSec ubSec r).findSome?
        (tryCandidate used usedSecs prev hourStart)) with
  | some res =>
    rw [hrad] at hsearch
    injection hsearch with hres
    subst hres
    obtain ⟨r, hrmem, hr⟩ := exists_of_findSome? _ _ _ hrad
    obtain ⟨c, hcmem, hc⟩ := exists_of_findSome? _ _ _ hr
    have hr1 : 1 ≤ r := (mem_natSeq 300 1 r hrmem).1
    have hts := tryCandidate_ts _ _ _ _ _ _ _ hc
    rcases mem_radCandidates baseSec lbSec ubSec r c hcmem with ⟨hceq, hcub⟩ | ⟨hceq, hclb⟩
    · constructor
      · have : (1 : Int) ≤ (r : Int) := by exact_mod_cast hr1
        omega
      · left
        have hmul : c * 1000 ≤ ubSec * 1000 := by omega
        omega
    · constructor
      · have hmul : lbSec * 1000 ≤ c * 1000 := by omega
        omega
      · right
        have : (1 : Int) ≤ (r : Int) := by exact_mod_cast hr1
        have hmul : c * 1000 ≤ (baseSec - 1) * 1000 := by omega
        omega
  | none =>
    rw [hrad] at hsearch
    obtain ⟨c, hcmem, hc⟩ := exists_of_findSome? _ _ _ hsearch
    have hts := tryCandidate_ts _ _ _ _ _ _ _ hc
    have hcb := mem_intRange lbSec ubSec c hcmem
    constructor
    · have hmul : lbSec * 1000 ≤ c * 1000 := by omega
      omega
    · left
      have hmul : c * 1000 ≤ ubSec * 1000 := by omega
      omega

lemma strictIncr_set (l : List Int) (i : Nat) (v : Int)
    (hinc : ∀ j, j + 1 < l.length → l.getD j 0 < l.getD (j+1) 0)
    (hi1 : 1 ≤ i) (hi : i < l.length)
    (hprev : l.getD (i-1) 0 < v)
    (hnext : i + 1 < l.length → v < l.getD (i+1) 0) :
    ∀ j, j + 1 < (l.set i v).length →
      (l.set i v).getD j 0 < (l.set i v).getD (j+1) 0 := by
  intro j hj
  rw [List.length_set] at hj
  by_cases h1 : j = i
  · subst h1
    rw [getD_set_self l j v 0 (by omega), getD_set_ne l j (j+1) v 0 (by omega)]
    exact hnext (by omega)
  · by_cases h2 : j + 1 = i
    · subst h2
      rw [getD_set_ne l (j+1) j v 0 (by omega),
        getD_set_self l (j+1) v 0 (by omega)]
      have h3 : j + 1 - 1 = j := by omega
      rw [h3] at hprev
      exact hprev
    · rw [getD_set_ne l i j v 0 (by omega), getD_set_ne l i (j+1) v 0 (by omega)]
      exact hinc j hj

lemma processIndex_preserves (i : Nat) (st : EUState)
    (hi1 : 1 ≤ i) (hi : i < st.times.length)
    (hinc : ∀ j, j + 1 < st.times.length →
      st.times.getD j 0 < st.times.getD (j+1) 0) :
    (processIndex st i).times.length = st.times.length ∧
    (∀ j, j + 1 < (processIndex st i).times.length →
      (processIndex st i).times.getD j 0 < (processIndex st i).times.getD (j+1) 0) := by
  have hprevcurr : st.times.getD (i-1) 0 < st.times.getD i 0 := by
    have h2 := hinc (i-1) (by omega)
    have h3 : i - 1 + 1 = i := by omega
    rw [h3] at h2
    exact h2
  have hsec := secondOfHour_bounds (st.times.getD i 0)
  simp only [processIndex]
  by_cases hlt1 : i + 1 < st.times.length
  · simp only [if_pos hlt1]
    split
    · split
      · exact ⟨rfl, hinc⟩
      · split
        · rename_i res hres
          have hbounds := searchAlternative_bounds
            st.usedIntervals
            ((hsGet st.hourToSeconds (floorToHourTs (st.times.getD i 0))).filter
              fun s => s != secondOfHour (st.times.getD i 0))
            (st.times.getD (i-1) 0)
            (floorToHourTs (st.times.getD i 0))
            (secondOfHour (st.times.getD i 0))
            (ceilDivInt
              (Max.max (floorToHourTs (st.times.getD i 0)) (st.times.getD (i-1) 0 + 1000)
                - floorToHourTs (st.times.getD i 0)) 1000)
            (floorDivInt
              (Min.min (floorToHourTs (st.times.getD i 0) + 3600000 - 1)
                  (st.times.getD (i+1) 0 - 1000)
                - floorToHourTs (st.times.getD i 0)) 1000)
            (st.times.getD i 0)
            (Max.max (floorToHourTs (st.times.getD i 0)) (st.times.getD (i-1) 0 + 1000))
            (Min.min (floorToHourTs (st.times.getD i 0) + 3600000 - 1)
              (st.times.getD (i+1) 0 - 1000))
            hsec.1 hsec.2
            (ceilDivInt_mul_ge _ 1000 (by norm_num))
            (floorDivInt_mul_le _ 1000 (by norm_num))
            (le_max_right _ _)
            hprevcurr
            res.1 res.2 hres
          refine ⟨List.length_set .., ?_⟩
          apply strictIncr_set st.times i res.1 hinc hi1 hi hbounds.1
          intro hlt
          have hcn : st.times.getD i 0 < st.times.getD (i+1) 0 := hinc i hlt
          rcases hbounds.2 with hb | hb
          · have := min_le_right
              (floorToHourTs (st.times.getD i 0) + 3600000 - 1)
              (st.times.getD (i+1) 0 - 1000)
            omega
          · omega
        · rename_i hres
          refine ⟨List.length_set .., ?_⟩
          apply strictIncr_set st.times i (st.times.getD i 0) hinc hi1 hi hprevcurr
          intro hlt
          exact hinc i hlt
    · exact ⟨rfl, hinc⟩
  · simp only [if_neg hlt1]
    split
    · split
      · exact ⟨rfl, hinc⟩
      · split
        · rename_i res hres
          have hbounds := searchAlternative_bounds
            st.usedIntervals
            ((hsGet st.hourToSeconds (floorToHourTs (st.times.getD i 0))).filter
              fun s => s != secondOfHour (st.times.getD i 0))
            (st.times.getD (i-1) 0)
            (floorToHourTs (st.times.getD i 0))
            (secondOfHour (st.times.getD i 0))
            (ceilDivInt
              (Max.max (floorToHourTs (st.times.getD i 0)) (st.times.getD (i-1) 0 + 1000)
                - floorToHourTs (st.times.getD i 0)) 1000)
            (floorDivInt
              ((floorToHourTs (st.times.getD i 0) + 3600000 - 1)
                - floorToHourTs (st.times.getD i 0)) 1000)
            (st.times.getD i 0)
            (Max.max (floorToHourTs (st.times.getD i 0)) (st.times.getD (i-1) 0 + 1000))
            (floorToHourTs (st.times.getD i 0) + 3600000 - 1)
            hsec.1 hsec.2
            (ceilDivInt_mul_ge _ 1000 (by norm_num))
            (floorDivInt_mul_le _ 1000 (by norm_num))
            (le_max_right _ _)
            hprevcurr
            res.1 res.2 hres
          refine ⟨List.length_set .., ?_⟩
          apply strictIncr_set st.times i res.1 hinc hi1 hi hbounds.1
          intro hlt
          exact absurd hlt hlt1
        · rename_i hres
          refine ⟨List.length_set .., ?_⟩
          apply strictIncr_set st.times i (st.times.getD i 0) hinc hi1 hi hprevcurr
          intro hlt
          exact absurd hlt hlt1
    · exact ⟨rfl, hinc⟩

lemma foldl_processIndex_inv : ∀ (idx : List Nat) (st : EUState),
    (∀ i ∈ idx, 1 ≤ i ∧ i < st.times.length) →
    (∀ j, j + 1 < st.times.length → st.times.getD j 0 < st.times.getD (j+1) 0) →
    ((idx.foldl processIndex st).times.length = st.times.length ∧
     ∀ j, j + 1 < (idx.foldl processIndex st).times.length →
       (idx.foldl processIndex st).times.getD j 0
         < (idx.foldl processIndex st).times.getD (j+1) 0) := by
  intro idx
  induction idx with
  | nil =>
    intro st _ hinc
    exact ⟨rfl, hinc⟩
  | cons i rest ih =>
    intro st hbound hinc
    have hi := hbound i (by simp)
    have hp := processIndex_preserves i st hi.1 hi.2 hinc
    have hih := ih (processIndex st i)
      (fun j hj => by rw [hp.1]; exact hbound j (by simp [hj]))
      hp.2
    simp only [List.foldl_cons]
    exact ⟨hih.1.trans hp.1, hih.2⟩

/-- C2: on a strictly increasing input timestamp list, the Interval
Uniqueness Enforcer preserves the element count and keeps the output
strictly increasing: every adjusted timestamp stays strictly after its
predecessor and strictly before its (original) successor. -/
theorem enforceUniqueIntervals_strict_mono (times0 : List Int)
    (hinc : ∀ j, j + 1 < times0.length →
      times0.getD j 0 < times0.getD (j+1) 0) :
    (enforceUniqueIntervals times0).length = times0.length ∧
    ∀ j, j + 1 < (enforceUniqueIntervals times0).length →
      (enforceUniqueIntervals times0).getD j 0
        < (enforceUniqueIntervals times0).getD (j+1) 0 := by
  simp only [enforceUniqueIntervals]
  split
  · exact ⟨rfl, hinc⟩
  · rename_i hlen
    exact foldl_processIndex_inv (natSeq 1 (times0.length - 1))
      ⟨times0, [], initHourSecs times0⟩
      (fun i hi2 => by
        have hm := mem_natSeq (times0.length - 1) 1 i hi2
        exact ⟨by omega, by show i < times0.length; omega⟩)
      hinc

/-- Witness for `enforceUniqueIntervals_strict_mono`: the input
[0s, 1s, 2s] has a duplicate 1-second gap; the enforcer moves the last
entry and the output stays a strictly increasing 3-element list. -/
theorem enforceUniqueIntervals_strict_mono_witness :
    (enforceUniqueIntervals [0, 1000, 2000]).length = 3 ∧
    ∀ j, j + 1 < (enforceUniqueIntervals [0, 1000, 2000]).length →
      (enforceUniqueIntervals [0, 1000, 2000]).getD j 0
        < (enforceUniqueIntervals [0, 1000, 2000]).getD (j+1) 0 := by
  have hinc : ∀ j, j + 1 < ([0, 1000, 2000] : List Int).length →
      ([0, 1000, 2000] : List Int).getD j 0
        < ([0, 1000, 2000] : List Int).getD (j+1) 0 := by
    intro j hj
    have hj2 : j = 0 ∨ j = 1 := by
      simp only [List.length_cons, List.length_nil] at hj
      omega
    rcases hj2 with rfl | rfl <;> decide
  exact ⟨(enforceUniqueIntervals_strict_mono [0, 1000, 2000] hinc).1,
    (enforceUniqueIntervals_strict_mono [0, 1000, 2000] hinc).2⟩
